import Mathlib

/-!
# Verification of the profile-alignment / iterative-refinement engine

Shallow embedding of `src/align.py` (multiple-sequence alignment by
generalized Needleman-Wunsch profile alignment plus simulated-annealing
iterative refinement).  Sequences are lists of `Char`; a profile is a list
of rows; the gap marker is `'-'`.  Machine arithmetic on scores is plain
integer arithmetic in Python, so scores are `Int`.  The annealing
temperature and cooling factor are Python floats used only through
comparisons and multiplications; they are modelled as exact rationals.
Randomness (`random.randrange`, `random.random`) is modelled by explicit
input streams.  Fallible paths (Python exceptions) return `Option`.
-/

namespace BioAlign

/-- A row of an alignment: an ordered list of symbols (gap is `'-'`). -/
abbrev Row := List Char

/-- A profile: an ordered list of rows (`list of symbol lists` in the source). -/
abbrev Profile := List Row

/-- Index of an amino-acid symbol into the BLOSUM50 table
(order A R N D C Q E G H I L K M F P S T W Y V); unknown symbols map
to 20, outside the table. -/
def aaIndex (c : Char) : Nat :=
  match c with
  | 'A' => 0 | 'R' => 1 | 'N' => 2 | 'D' => 3 | 'C' => 4
  | 'Q' => 5 | 'E' => 6 | 'G' => 7 | 'H' => 8 | 'I' => 9
  | 'L' => 10 | 'K' => 11 | 'M' => 12 | 'F' => 13 | 'P' => 14
  | 'S' => 15 | 'T' => 16 | 'W' => 17 | 'Y' => 18 | 'V' => 19
  | _ => 20

/-- Lower triangle of the standard BLOSUM50 substitution matrix
(`substitution_matrices.load("BLOSUM50")` in the source), row `i` holding
the entries for columns `0..i` in the `aaIndex` order. -/
def blosumLT : List (List Int) :=
  [ [5],
    [-2, 7],
    [-1, -1, 7],
    [-2, -2, 2, 8],
    [-1, -4, -2, -4, 13],
    [-1, 1, 0, 0, -3, 7],
    [-1, 0, 0, 2, -3, 2, 6],
    [0, -3, 0, -1, -3, -2, -3, 8],
    [-2, 0, 1, -1, -3, 1, 0, -2, 10],
    [-1, -4, -3, -4, -2, -3, -4, -4, -4, 5],
    [-2, -3, -4, -4, -2, -2, -3, -4, -3, 2, 5],
    [-1, 3, 0, -1, -3, 2, 1, -2, 0, -3, -3, 6],
    [-1, -2, -2, -4, -2, 0, -2, -3, -1, 2, 3, -2, 7],
    [-3, -3, -4, -5, -2, -4, -3, -4, -1, 0, 1, -4, 0, 8],
    [-1, -3, -2, -1, -4, -1, -1, -2, -2, -3, -4, -1, -3, -4, 10],
    [1, -1, 1, 0, -1, 0, -1, 0, -1, -3, -3, 0, -2, -3, -1, 5],
    [0, -1, 0, -1, -1, -1, -1, -2, -2, -1, -1, -1, -1, -2, -1, 2, 5],
    [-3, -3, -4, -5, -5, -1, -3, -3, -3, -3, -2, -3, -1, 1, -4, -4, -3, 15],
    [-2, -1, -2, -3, -3, -1, -2, -3, 2, -1, -1, -2, 0, 4, -3, -2, -2, 2, 8],
    [0, -3, -3, -4, -1, -3, -3, -4, -4, 4, 1, -3, 1, -1, -3, -2, 0, -3, -1, 5] ]

/-- Symmetric BLOSUM50 lookup `blosum50[a, b]` (the module-level table of
the source).  The unordered pair is looked up through the lower triangle,
which makes symmetry structural. -/
def blosum50 (a b : Char) : Int :=
  let i := aaIndex a
  let j := aaIndex b
  if j ≤ i then (blosumLT.getD i []).getD j 0 else (blosumLT.getD j []).getD i 0

/-- Embedding of `scoreAlignment` (src/align.py lines 14-30): sum-of-pairs
score of a whole alignment over all columns `i` of row 0 and all row pairs
`j < k`, with the gap penalty sign-flipped when negative. -/
def scoreAlignment (alignment : Profile) (gapPenalty : Int) : Int :=
  let g := if gapPenalty < 0 then -gapPenalty else gapPenalty
  ((List.range (alignment.headD []).length).map (fun i =>
    ((List.range (alignment.length - 1)).map (fun j =>
      ((List.range' (j + 1) (alignment.length - (j + 1))).map (fun k =>
        let a := (alignment.getD j []).getD i '?'
        let b := (alignment.getD k []).getD i '?'
        if (a == '-') != (b == '-') then -g
        else if a ≠ '-' ∧ b ≠ '-' then blosum50 a b
        else 0)).sum)).sum)).sum

/-- Embedding of `scoreColumns` (src/align.py lines 33-49): cross
sum-of-pairs score of column `i` of profile `x` against column `j` of
profile `y`, with the gap penalty sign-flipped when negative. -/
def scoreColumns (x y : Profile) (i j : Nat) (gapPenalty : Int) : Int :=
  let g := if gapPenalty < 0 then -gapPenalty else gapPenalty
  (x.map (fun xr =>
    (y.map (fun yr =>
      let a := xr.getD i '?'
      let b := yr.getD j '?'
      if (a == '-') != (b == '-') then -g
      else if a ≠ '-' ∧ b ≠ '-' then blosum50 a b
      else 0)).sum)).sum

/-- Traceback direction recorded in the `t` matrix of `alignProfiles`:
`'D'`, `'T'`, `'L'` in the source. -/
inductive Dir : Type where
  | D : Dir
  | T : Dir
  | L : Dir
deriving DecidableEq, Repr

/-- One inner step of the weights-matrix fill of `alignProfiles`
(src/align.py lines 69-82), building row `i+1` left to right; `prevRow` is
row `i` of the matrix, and the accumulating list is read back for the
`left` neighbour.  `j + 1` cells are produced for column indices `0..j`.
The `scoreColumns` call uses gap penalty 8 because the source (line 70)
calls it without passing `d`, picking up the default. -/
def buildRow (x y : Profile) (d : Int) (i : Nat) (prevRow : List (Int × Dir)) :
    Nat → List (Int × Dir)
  | 0 => [(-((i : Int) + 1) * d * (y.length : Int), Dir.T)]
  | j + 1 =>
    let acc := buildRow x y d i prevRow j
    let diag := (prevRow.getD j (0, Dir.L)).1 + scoreColumns x y i j 8
    let top := (prevRow.getD (j + 1) (0, Dir.L)).1 - d * (y.length : Int)
    let left := (acc.getD j (0, Dir.L)).1 - d * (x.length : Int)
    acc ++ [if diag ≥ top ∧ diag ≥ left then (diag, Dir.D)
            else if top ≥ diag ∧ top ≥ left then (top, Dir.T)
            else (left, Dir.L)]

/-- Row `i` of the combined score/traceback matrix of `alignProfiles`
(`f` and `t` of src/align.py lines 56-82, zipped into one matrix of
pairs).  Row 0 is the base row `f[0][j] = -j*d*len(x)`, `t[0][j] = 'L'`;
row `i+1` is filled by `buildRow` over columns `0..lenY`. -/
def matRows (x y : Profile) (d : Int) : Nat → List (Int × Dir)
  | 0 => (List.range ((y.headD []).length + 1)).map
      (fun (j : Nat) => (-(j : Int) * d * (x.length : Int), Dir.L))
  | i + 1 => buildRow x y d i (matRows x y d i) (y.headD []).length

/-- Entry `(i, j)` of the combined matrix. -/
def cellAt (x y : Profile) (d : Int) (i j : Nat) : Int × Dir :=
  (matRows x y d i).getD j (0, Dir.L)

/-- Score entry `f[i][j]` of `alignProfiles`. -/
def fMat (x y : Profile) (d : Int) (i j : Nat) : Int :=
  (cellAt x y d i j).1

/-- Traceback entry `t[i][j]` of `alignProfiles`. -/
def tMat (x y : Profile) (d : Int) (i j : Nat) : Dir :=
  (cellAt x y d i j).2

/-- Appends symbol `c`-indexed column entries of profile `p` (at column
`idx`) to the rows accumulated so far: the functional reading of the
source's `xp[k].insert(0, x[k][i-1])` loops, with the traceback unrolled
from `(0,0)` outward so prepends become appends. -/
def appendColOf (acc : List Row) (p : Profile) (idx : Nat) : List Row :=
  List.zipWith (fun r pr => r ++ [pr.getD idx '?']) acc p

/-- Appends a gap symbol to every accumulated row
(the `insert(0, '-')` loops of the source). -/
def appendGap (acc : List Row) : List Row :=
  acc.map (fun r => r ++ ['-'])

/-- Traceback walk of `alignProfiles` (src/align.py lines 100-123),
structured as recursion on `fuel = i + j`: the source's `while i + j > 0`
loop prepends one column per step, which is the same as appending that
column to the result of the walk from the predecessor cell.  At `i = 0`
the matrix forces `t[0][j] = 'L'` and at `j = 0` (with `i ≥ 1`) it forces
`t[i][0] = 'T'`, so those cases are inlined. -/
def tbFuel (x y : Profile) (d : Int) : Nat → Nat → Nat → Profile × Profile
  | 0, _, _ => (x.map (fun _ => ([] : Row)), y.map (fun _ => ([] : Row)))
  | _ + 1, 0, 0 => (x.map (fun _ => ([] : Row)), y.map (fun _ => ([] : Row)))
  | fuel + 1, 0, j + 1 =>
    let p := tbFuel x y d fuel 0 j
    (appendGap p.1, appendColOf p.2 y j)
  | fuel + 1, i + 1, 0 =>
    let p := tbFuel x y d fuel i 0
    (appendColOf p.1 x i, appendGap p.2)
  | fuel + 1, i + 1, j + 1 =>
    match tMat x y d (i + 1) (j + 1) with
    | Dir.D =>
      let p := tbFuel x y d fuel i j
      (appendColOf p.1 x i, appendColOf p.2 y j)
    | Dir.T =>
      let p := tbFuel x y d fuel i (j + 1)
      (appendColOf p.1 x i, appendGap p.2)
    | Dir.L =>
      let p := tbFuel x y d fuel (i + 1) j
      (appendGap p.1, appendColOf p.2 y j)

/-- The traceback result starting at cell `(i, j)`. -/
def traceback (x y : Profile) (d : Int) (i j : Nat) : Profile × Profile :=
  tbFuel x y d (i + j) i j

/-- Embedding of `alignProfiles` (src/align.py lines 52-126): computes
the weights matrix over the grid `(lenX+1) x (lenY+1)` with
`lenX = len(x[0])`, `lenY = len(y[0])`, runs the traceback from
`(lenX, lenY)`, and returns `(f[lenX][lenY], xp, yp)`. -/
def alignProfiles (x y : Profile) (d : Int) : Int × Profile × Profile :=
  let lenX := (x.headD []).length
  let lenY := (y.headD []).length
  let p := traceback x y d lenX lenY
  (fMat x y d lenX lenY, p.1, p.2)

/-! ## Specification-side classical pairwise Needleman-Wunsch

The definitions below follow the words of the specification (sections 4.2
and 8): classical pairwise Needleman-Wunsch over two bare sequences with
linear gap penalty `d`, base cases `F[0][j] = -j*d`, `F[i][0] = -i*d`,
recurrence `max(F[i-1][j-1] + s(x_i, y_j), F[i-1][j] - d, F[i][j-1] - d)`
under the substitution table, ties resolved diagonal over top over left,
and traceback from `(n, m)` built by prepending.  They are the comparison
point for the refinement claim, not a translation of the source. -/

/-- One row-fill step of the classical pairwise DP. -/
def nwBuildRow (s1 s2 : List Char) (d : Int) (i : Nat) (prevRow : List (Int × Dir)) :
    Nat → List (Int × Dir)
  | 0 => [(-((i : Int) + 1) * d, Dir.T)]
  | j + 1 =>
    let acc := nwBuildRow s1 s2 d i prevRow j
    let diag := (prevRow.getD j (0, Dir.L)).1 + blosum50 (s1.getD i '?') (s2.getD j '?')
    let top := (prevRow.getD (j + 1) (0, Dir.L)).1 - d
    let left := (acc.getD j (0, Dir.L)).1 - d
    acc ++ [if diag ≥ top ∧ diag ≥ left then (diag, Dir.D)
            else if top ≥ diag ∧ top ≥ left then (top, Dir.T)
            else (left, Dir.L)]

/-- Row `i` of the classical pairwise DP matrix. -/
def nwRows (s1 s2 : List Char) (d : Int) : Nat → List (Int × Dir)
  | 0 => (List.range (s2.length + 1)).map (fun (j : Nat) => (-(j : Int) * d, Dir.L))
  | i + 1 => nwBuildRow s1 s2 d i (nwRows s1 s2 d i) s2.length

/-- Entry `(i, j)` of the classical pairwise DP matrix. -/
def nwCellAt (s1 s2 : List Char) (d : Int) (i j : Nat) : Int × Dir :=
  (nwRows s1 s2 d i).getD j (0, Dir.L)

/-- Classical pairwise traceback, as recursion on `fuel = i + j`. -/
def nwTbFuel (s1 s2 : List Char) (d : Int) : Nat → Nat → Nat → Row × Row
  | 0, _, _ => ([], [])
  | _ + 1, 0, 0 => ([], [])
  | fuel + 1, 0, j + 1 =>
    let p := nwTbFuel s1 s2 d fuel 0 j
    (p.1 ++ ['-'], p.2 ++ [s2.getD j '?'])
  | fuel + 1, i + 1, 0 =>
    let p := nwTbFuel s1 s2 d fuel i 0
    (p.1 ++ [s1.getD i '?'], p.2 ++ ['-'])
  | fuel + 1, i + 1, j + 1 =>
    match (nwCellAt s1 s2 d (i + 1) (j + 1)).2 with
    | Dir.D =>
      let p := nwTbFuel s1 s2 d fuel i j
      (p.1 ++ [s1.getD i '?'], p.2 ++ [s2.getD j '?'])
    | Dir.T =>
      let p := nwTbFuel s1 s2 d fuel i (j + 1)
      (p.1 ++ [s1.getD i '?'], p.2 ++ ['-'])
    | Dir.L =>
      let p := nwTbFuel s1 s2 d fuel (i + 1) j
      (p.1 ++ ['-'], p.2 ++ [s2.getD j '?'])

/-- Classical pairwise Needleman-Wunsch with linear gap penalty (built
from the specification's words): score and the two gapped sequences. -/
def classicalNW (s1 s2 : List Char) (d : Int) : Int × Row × Row :=
  ((nwCellAt s1 s2 d s1.length s2.length).1,
    nwTbFuel s1 s2 d (s1.length + s2.length) s1.length s2.length)

/-! ## The refinement driver `iterate`

`iterate` (src/align.py lines 129-207) is embedded with its randomness
made explicit: `rowDraws` is the stream of `random.randrange(len(alignment))`
results (a draw outside the current range cannot occur in the source and
is mapped to `none`), and `accepts c` is the outcome of the comparison
`random.random() <= math.exp((newScore - prevScore) / t)` in cycle `c`
(the only use the source makes of that draw).  Temperature `t` and
cooling factor `m` are exact rationals.  Python exceptions (index errors
on an emptied alignment) are `none`.  The `while` loop that precomputes
the progress-bar length carries a `fuel` bound and yields `none` if the
bound is hit before `t` drops to 1. -/

/-- Strips all gap symbols from a row (`[e for e in row if e != '-']`,
src/align.py line 168). -/
def stripGaps (r : Row) : Row :=
  r.filter (fun e => e ≠ '-')

/-- Removes and returns element `i` of a list (`list.pop(i)` in Python);
`none` when `i` is out of range (Python raises). -/
def popAt {α : Type} (l : List α) (i : Nat) : Option (α × List α) :=
  if h : i < l.length then some (l.get ⟨i, h⟩, l.take i ++ l.drop (i + 1)) else none

/-- The row-removal loop of a refinement cycle (src/align.py lines
165-169): removes `n` rows at the drawn indices, strips their gaps, and
returns the shrunk alignment, the stripped sequences in removal order,
and the unconsumed draws. -/
def removeRows : Nat → Profile → List Nat → Option (Profile × List Row × List Nat)
  | 0, a, ds => some (a, [], ds)
  | n + 1, a, ds =>
    match ds with
    | [] => none
    | idx :: ds' =>
      (popAt a idx).bind (fun pr =>
        (removeRows n pr.2 ds').map (fun r => (r.1, stripGaps pr.1 :: r.2.1, r.2.2)))

/-- Removes column `i` from every row (`alignment[i].pop(index)` loop,
src/align.py lines 181-183); `none` if any row is too short (Python
raises). -/
def removeColAll (a : Profile) (i : Nat) : Option Profile :=
  a.mapM (fun row => (popAt row i).map Prod.snd)

/-- Null-column removal (src/align.py lines 171-183): collects the
indices of columns of the current alignment that hold only gaps —
scanning columns of row 0 in ascending order and `insert(0, i)` builds
the list in descending order — then pops each collected index from every
row.  `none` when the alignment is empty (`alignment[0]` raises). -/
def removeNullCols (a : Profile) : Option Profile :=
  match a with
  | [] => none
  | r0 :: _ =>
    let nulls := ((List.range r0.length).filter
      (fun i => a.all (fun row => row.getD i '?' = '-'))).reverse
    nulls.foldlM removeColAll a

/-- The re-insertion loop of a refinement cycle (src/align.py lines
185-187): for each removed sequence, aligns the working profile against
the one-row profile `[sequence]` and appends the returned gapped row. -/
def reinsertAll (d : Int) : Profile → List Row → Profile
  | a, [] => a
  | a, seq :: rest =>
    let r := alignProfiles a [seq] d
    reinsertAll d (r.2.1 ++ [r.2.2.headD []]) rest

/-- One refinement cycle body (src/align.py lines 162-189): snapshot
score, remove `numR` rows, drop null columns, re-insert, and return the
new alignment, the unconsumed draws, and the pair
(previous score, new score). -/
def cycle (a : Profile) (numR : Nat) (d : Int) (draws : List Nat) :
    Option (Profile × List Nat × Int × Int) :=
  let prevScore := scoreAlignment a d
  (removeRows numR a draws).bind (fun r1 =>
    (removeNullCols r1.1).map (fun a2 =>
      let a3 := reinsertAll d a2 r1.2.1
      (a3, r1.2.2, prevScore, scoreAlignment a3 d)))

/-- The refinement loop (src/align.py lines 155-207): runs at most `n`
cycles (the precomputed progress-bar length), breaking when the
stagnation counter reaches 7.  Per cycle the stagnation counter is
incremented on an unchanged score and reset otherwise, the
acceptance branch is evaluated (it reassigns only `prevProfile` and
`prevScore`, which the next cycle overwrites at lines 162-163 and which
are unread after the loop, so it has no effect on the returned value),
and the temperature is cooled.  On exit the returned pair is
`(scoreAlignment(alignment, d), alignment)` (lines 206-207). -/
def refineLoop (numR : Nat) (d : Int) (m : ℚ) (accepts : Nat → Bool) :
    Nat → Profile → ℚ → Nat → Nat → List Nat → Option (Int × Profile)
  | 0, a, _, _, _, _ => some (scoreAlignment a d, a)
  | n + 1, a, t, counter, c, draws =>
    if 7 ≤ counter then some (scoreAlignment a d, a)
    else
      match cycle a numR d draws with
      | none => none
      | some r =>
        let newScore := r.2.2.2
        let prevScore := r.2.2.1
        let counter' := if newScore = prevScore then counter + 1 else 0
        let accepted := if newScore ≤ prevScore then accepts c else true
        let _ := accepted
        refineLoop numR d m accepts n r.1 (t * m) counter' (c + 1) r.2.1

/-- The progress-bar precomputation (src/align.py lines 149-153):
`n = 0; while t > 1: n += 1; t = t * m`.  Note that it runs on the same
variable `t` that the refinement cycles then use.  Returns the loop count
and the final value of `t`; `none` when `fuel` is exhausted first. -/
def nLoop (m : ℚ) : Nat → ℚ → Option (Nat × ℚ)
  | fuel, t =>
    if 1 < t then
      match fuel with
      | 0 => none
      | fuel' + 1 => (nLoop m fuel' (t * m)).map (fun p => (p.1 + 1, p.2))
    else some (0, t)

/-- Embedding of `iterate` (src/align.py lines 129-207).  The cooling
factor is coerced to 0.95 when `m >= 1` (line 134); the per-cycle removal
count is 1 when `y = 0`, else `ceil(len(alignment) * y)` decremented when
it equals the row count (lines 138-143); then the progress-bar loop runs
and the refinement loop starts from the `t` value that loop left behind. -/
def iterate (alignment : Profile) (t m y : ℚ) (d : Int) (rowDraws : List Nat)
    (accepts : Nat → Bool) (fuel : Nat) : Option (Int × Profile) :=
  let mm := if 1 ≤ m then (19 : ℚ) / 20 else m
  let numRealignedSequences :=
    if y = 0 then 1
    else
      let nr := (Int.ceil ((alignment.length : ℚ) * y)).toNat
      if nr = alignment.length then nr - 1 else nr
  (nLoop mm fuel t).bind (fun p =>
    refineLoop numRealignedSequences d mm accepts p.1 alignment p.2 0 0 rowDraws)

/-! ## Specification predicates -/

/-- A profile is rectangular: all rows share one length (the data-model
invariant of the specification, section 3). -/
def rect (p : Profile) : Prop :=
  ∀ r1 ∈ p, ∀ r2 ∈ p, r1.length = r2.length

instance (p : Profile) : Decidable (rect p) := by
  unfold rect; infer_instance

/-- `GapIns a b` holds when `b` is `a` with zero or more gap symbols
inserted: the original symbols appear in `b` in order and unchanged.
Built from the right, matching the traceback's column-by-column growth. -/
inductive GapIns : Row → Row → Prop where
  | nil : GapIns [] []
  | sym (c : Char) {a b : Row} : GapIns a b → GapIns (a ++ [c]) (b ++ [c])
  | gap {a b : Row} : GapIns a b → GapIns a (b ++ ['-'])

/-- No column of the profile (over the column range of row 0, the range
the source scans) consists entirely of gap symbols. -/
def noAllGapCol (p : Profile) : Prop :=
  ∀ i < (p.headD []).length, ∃ r ∈ p, r.getD i '?' ≠ '-'

instance (p : Profile) : Decidable (noAllGapCol p) := by
  unfold noAllGapCol; infer_instance

/-! ## Basic facts about the substitution table -/

theorem blosum50_symm (a b : Char) : blosum50 a b = blosum50 b a := by
  unfold blosum50
  by_cases h1 : aaIndex b ≤ aaIndex a <;> by_cases h2 : aaIndex a ≤ aaIndex b <;>
    simp only [h1, h2, if_true, if_false, if_pos, if_neg, not_true, not_false_iff]
  · have h : aaIndex a = aaIndex b := le_antisymm h2 h1
    rw [h]
  · omega

/-! ## Interface lemmas for the DP matrix -/

theorem buildRow_length (x y : Profile) (d : Int) (i : Nat) (p : List (Int × Dir)) :
    ∀ j, (buildRow x y d i p j).length = j + 1 := by
  intro j
  induction j with
  | zero => rfl
  | succ j ih => simp [buildRow, ih]

theorem buildRow_getD_le (x y : Profile) (d : Int) (i : Nat) (p : List (Int × Dir))
    {k : Nat} : ∀ {j}, k ≤ j →
    (buildRow x y d i p j).getD k (0, Dir.L) = (buildRow x y d i p k).getD k (0, Dir.L) := by
  intro j
  induction j with
  | zero =>
    intro h
    have hk : k = 0 := Nat.le_zero.mp h
    subst hk
    rfl
  | succ j ih =>
    intro h
    rcases Nat.lt_or_ge k (j + 1) with hk | hk
    · rw [show buildRow x y d i p (j + 1) =
        buildRow x y d i p j ++ [_] from rfl]
      rw [List.getD_append _ _ _ _ (by rw [buildRow_length]; omega)]
      exact ih (by omega)
    · have : k = j + 1 := by omega
      subst this
      rfl

theorem getD_map_range {α : Type} (f : Nat → α) (df : α) {n k : Nat} (h : k < n) :
    ((List.range n).map f).getD k df = f k := by
  rw [List.getD_eq_getElem?_getD, List.getElem?_map, List.getElem?_range h]
  rfl

/-- Base row: `f[0][j] = -j * d * len(x)`, `t[0][j] = 'L'`. -/
theorem cellAt_zero (x y : Profile) (d : Int) {j : Nat}
    (h : j ≤ (y.headD []).length) :
    cellAt x y d 0 j = (-(j : Int) * d * (x.length : Int), Dir.L) := by
  unfold cellAt matRows
  apply getD_map_range
  omega

/-- Base column: `f[i][0] = -i * d * len(y)`, `t[i][0] = 'T'` for `i ≥ 1`. -/
theorem cellAt_succ_zero (x y : Profile) (d : Int) (i : Nat) :
    cellAt x y d (i + 1) 0 = (-((i : Int) + 1) * d * (y.length : Int), Dir.T) := by
  unfold cellAt
  show (buildRow x y d i (matRows x y d i) (y.headD []).length).getD 0 (0, Dir.L) = _
  rw [buildRow_getD_le x y d i _ (Nat.zero_le _)]
  rfl

/-- Interior cell: the recurrence of src/align.py lines 70-82 with the
recorded branch, reading the three neighbours through `fMat`. -/
theorem cellAt_succ_succ (x y : Profile) (d : Int) (i j : Nat)
    (h : j + 1 ≤ (y.headD []).length) :
    cellAt x y d (i + 1) (j + 1) =
      (if fMat x y d i j + scoreColumns x y i j 8 ≥ fMat x y d i (j + 1) - d * (y.length : Int) ∧
          fMat x y d i j + scoreColumns x y i j 8 ≥ fMat x y d (i + 1) j - d * (x.length : Int)
       then (fMat x y d i j + scoreColumns x y i j 8, Dir.D)
       else if fMat x y d i (j + 1) - d * (y.length : Int) ≥ fMat x y d i j + scoreColumns x y i j 8 ∧
          fMat x y d i (j + 1) - d * (y.length : Int) ≥ fMat x y d (i + 1) j - d * (x.length : Int)
       then (fMat x y d i (j + 1) - d * (y.length : Int), Dir.T)
       else (fMat x y d (i + 1) j - d * (x.length : Int), Dir.L)) := by
  have hacc : cellAt x y d (i + 1) j =
      (buildRow x y d i (matRows x y d i) j).getD j (0, Dir.L) := by
    unfold cellAt
    show (buildRow x y d i (matRows x y d i) (y.headD []).length).getD j (0, Dir.L) = _
    rw [buildRow_getD_le x y d i _ (by omega)]
  unfold cellAt
  show (buildRow x y d i (matRows x y d i) (y.headD []).length).getD (j + 1) (0, Dir.L) = _
  rw [buildRow_getD_le x y d i _ h]
  rw [show buildRow x y d i (matRows x y d i) (j + 1) =
    buildRow x y d i (matRows x y d i) j ++ [_] from rfl]
  rw [List.getD_append_right _ _ _ _ (by rw [buildRow_length])]
  rw [buildRow_length]
  simp only [Nat.sub_self]
  rw [← hacc]
  rfl

/-- The stored interior score is the maximum of the three candidate moves. -/
theorem fMat_succ_succ_max (x y : Profile) (d : Int) (i j : Nat)
    (h : j + 1 ≤ (y.headD []).length) :
    fMat x y d (i + 1) (j + 1) =
      max (fMat x y d i j + scoreColumns x y i j 8)
        (max (fMat x y d i (j + 1) - d * (y.length : Int))
          (fMat x y d (i + 1) j - d * (x.length : Int))) := by
  rw [fMat, cellAt_succ_succ x y d i j h]
  rw [max_def, max_def]
  split_ifs <;> simp_all <;> omega

/-- The recorded interior branch follows the source's conditional. -/
theorem tMat_succ_succ (x y : Profile) (d : Int) (i j : Nat)
    (h : j + 1 ≤ (y.headD []).length) :
    tMat x y d (i + 1) (j + 1) =
      (if fMat x y d i j + scoreColumns x y i j 8 ≥ fMat x y d i (j + 1) - d * (y.length : Int) ∧
          fMat x y d i j + scoreColumns x y i j 8 ≥ fMat x y d (i + 1) j - d * (x.length : Int)
       then Dir.D
       else if fMat x y d i (j + 1) - d * (y.length : Int) ≥ fMat x y d i j + scoreColumns x y i j 8 ∧
          fMat x y d i (j + 1) - d * (y.length : Int) ≥ fMat x y d (i + 1) j - d * (x.length : Int)
       then Dir.T
       else Dir.L) := by
  rw [tMat, cellAt_succ_succ x y d i j h]
  split_ifs <;> rfl

/-! ## Claim C1 -/

/-- C1: over the DP grid of `alignProfiles(X, Y, d)` the base cases are
`f[0][j] = -j*d*rowCount(X)` and `f[i][0] = -i*d*rowCount(Y)`; every
interior entry is the maximum of the diagonal move (adding the cross
score of column `i-1` of `X` against column `j-1` of `Y`, taken by the
source with its default penalty 8), the top move (minus
`d*rowCount(Y)`), and the left move (minus `d*rowCount(X)`); the recorded
branch resolves ties with priority diagonal over top over left; and the
returned score is `f[lenX][lenY]`. -/
theorem dp_matrix_spec_c1 (x y : Profile) (d : Int) :
    (∀ j, j ≤ (y.headD []).length →
      fMat x y d 0 j = -(j : Int) * d * (x.length : Int) ∧ tMat x y d 0 j = Dir.L)
    ∧ (∀ i, fMat x y d (i + 1) 0 = -((i : Int) + 1) * d * (y.length : Int) ∧
        tMat x y d (i + 1) 0 = Dir.T)
    ∧ (∀ i j, j + 1 ≤ (y.headD []).length →
        fMat x y d (i + 1) (j + 1) =
          max (fMat x y d i j + scoreColumns x y i j 8)
            (max (fMat x y d i (j + 1) - d * (y.length : Int))
              (fMat x y d (i + 1) j - d * (x.length : Int)))
        ∧ tMat x y d (i + 1) (j + 1) =
          (if fMat x y d i j + scoreColumns x y i j 8 ≥
                fMat x y d i (j + 1) - d * (y.length : Int) ∧
              fMat x y d i j + scoreColumns x y i j 8 ≥
                fMat x y d (i + 1) j - d * (x.length : Int)
           then Dir.D
           else if fMat x y d i (j + 1) - d * (y.length : Int) ≥
                fMat x y d i j + scoreColumns x y i j 8 ∧
              fMat x y d i (j + 1) - d * (y.length : Int) ≥
                fMat x y d (i + 1) j - d * (x.length : Int)
           then Dir.T
           else Dir.L))
    ∧ (alignProfiles x y d).1 = fMat x y d ((x.headD []).length) ((y.headD []).length) := by
  refine ⟨?_, ?_, ?_, rfl⟩
  · intro j h
    have hc := cellAt_zero x y d h
    exact ⟨by rw [fMat, hc], by rw [tMat, hc]⟩
  · intro i
    have hc := cellAt_succ_zero x y d i
    exact ⟨by rw [fMat, hc], by rw [tMat, hc]⟩
  · intro i j h
    exact ⟨fMat_succ_succ_max x y d i j h, tMat_succ_succ x y d i j h⟩

/-- Witness for C1: the base-row formula and the interior recurrence of
the theorem evaluated at the concrete call `alignProfiles([['A']], [['C']], 8)`. -/
theorem dp_matrix_spec_c1_witness :
    (fMat [['A']] [['C']] 8 0 1 = -(1 : Int) * 8 * (([['A']] : Profile).length : Int))
    ∧ (fMat [['A']] [['C']] 8 1 1 =
        max (fMat [['A']] [['C']] 8 0 0 + scoreColumns [['A']] [['C']] 0 0 8)
          (max (fMat [['A']] [['C']] 8 0 1 - 8 * (([['C']] : Profile).length : Int))
            (fMat [['A']] [['C']] 8 1 0 - 8 * (([['A']] : Profile).length : Int)))) :=
  ⟨((dp_matrix_spec_c1 [['A']] [['C']] 8).1 1 (by decide)).1,
    ((dp_matrix_spec_c1 [['A']] [['C']] 8).2.2.1 0 0 (by decide)).1⟩

/-! ## Claim C9 -/

/-- C9 (amended): the scoring operations `scoreAlignment` and
`scoreColumns` sign-flip a negative gap penalty before use, so a call
with `-d` (for `d > 0`) returns exactly the result of the call with `d`.
(`alignProfiles` performs no such coercion; see the counterexample.) -/
theorem score_ops_coerce_neg_gap_c9 (d : Int) (hd : 0 < d) :
    (∀ a : Profile, scoreAlignment a (-d) = scoreAlignment a d)
    ∧ (∀ x y : Profile, ∀ i j : Nat, scoreColumns x y i j (-d) = scoreColumns x y i j d) := by
  have hg : (if -d < 0 then -(-d) else -d) = (if d < 0 then -d else d) := by
    rw [if_pos (by omega), if_neg (by omega)]
    ring
  constructor
  · intro a
    simp only [scoreAlignment]
    rw [hg]
  · intro x y i j
    simp only [scoreColumns]
    rw [hg]

/-- Witness for C9's amended theorem at `d = 8` on a concrete alignment
and concrete columns. -/
theorem score_ops_coerce_neg_gap_c9_witness :
    (0 : Int) < 8 ∧
    scoreAlignment [['A', '-'], ['C', 'A']] (-8) = scoreAlignment [['A', '-'], ['C', 'A']] 8 ∧
    scoreColumns [['A', '-']] [['C', 'A']] 1 0 (-8) = scoreColumns [['A', '-']] [['C', 'A']] 1 0 8 :=
  ⟨by decide, (score_ops_coerce_neg_gap_c9 8 (by decide)).1 [['A', '-'], ['C', 'A']],
    (score_ops_coerce_neg_gap_c9 8 (by decide)).2 [['A', '-']] [['C', 'A']] 1 0⟩

/-- Counterexample to C9 as stated: `alignProfiles` does not coerce a
negative gap penalty — with `d = 8` the call with `-8` returns a
different score and different gapped profiles than the call with `8`. -/
theorem alignProfiles_neg_gap_c9_counterexample :
    alignProfiles [['A']] [['A']] (-8) ≠ alignProfiles [['A']] [['A']] 8 := by
  decide

/-! ## Claim C6 counterexample -/

/-- Counterexample to C6 as stated: for the profiles `X = [['A','-']]`
(which carries an all-gap column) and `Y = [['A']]` with gap penalty 8,
the merged output consists of rows of length 2 whose column 1 is entirely
gap symbols. -/
theorem merged_all_gap_column_c6_counterexample :
    (alignProfiles [['A', '-']] [['A']] 8).2.1 = [['A', '-']] ∧
    (alignProfiles [['A', '-']] [['A']] 8).2.2 = [['A', '-']] ∧
    ∀ r ∈ (alignProfiles [['A', '-']] [['A']] 8).2.1 ++
        (alignProfiles [['A', '-']] [['A']] 8).2.2,
      r.length = 2 ∧ r.getD 1 '?' = '-' := by
  decide

/-! ## Claim C7 counterexample -/

/-- Counterexample to C7 as stated: for `X = [['A']]`, `Y = [['W']]`,
`d = 1` a top/left tie is broken asymmetrically, so the swapped call does
not return the swapped pair of outputs (the score does agree). -/
theorem swap_not_row_swap_c7_counterexample :
    alignProfiles [['W']] [['A']] 1 ≠
      ((alignProfiles [['A']] [['W']] 1).1, (alignProfiles [['A']] [['W']] 1).2.2,
        (alignProfiles [['A']] [['W']] 1).2.1) := by
  decide

/-! ## Claim C3 -/

/-- C3 (code behaviour at the failing input): with the alignment
`[A-, -A, AA]`, `t = 10`, `m = 1/10`, `y = 0`, `d = 0`, row draw 2 and a
rejecting acceptance draw, the single refinement cycle produces a
candidate scoring 0 against a pre-cycle snapshot scoring 10, the
acceptance test rejects — and `iterate` nevertheless returns the rejected
candidate, not the snapshot: the rejection branch of the source updates
only the dead `prevProfile`/`prevScore` variables. -/
theorem rejected_candidate_kept_c3 :
    iterate [['A', '-'], ['-', 'A'], ['A', 'A']] 10 (1 / 10) 0 0 [2] (fun _ => false) 100 =
      some (0, [['-', '-', 'A', '-'], ['-', '-', '-', 'A'], ['A', 'A', '-', '-']]) ∧
    scoreAlignment [['A', '-'], ['-', 'A'], ['A', 'A']] 0 = 10 ∧
    scoreAlignment [['-', '-', 'A', '-'], ['-', '-', '-', 'A'], ['A', 'A', '-', '-']] 0 = 0 := by
  with_unfolding_all decide

/-! ## Claim C4 -/

/-- C4 (code behaviour): the progress-bar precomputation
(`while t > 1: n += 1; t = t * m`) runs on the same variable `t` the
refinement cycles use, so with `t = 10`, `m = 1/2` the first cycle's
temperature is `10 * (1/2)^4 = 5/8`, not the configured 10: `iterate`
hands the refinement loop the clobbered temperature `5/8`. -/
theorem first_cycle_temperature_clobbered_c4 :
    nLoop ((1 : ℚ) / 2) 100 10 = some (4, (5 : ℚ) / 8) ∧
    ((5 : ℚ) / 8) ≠ 10 ∧
    ∀ (a : Profile) (d : Int) (ds : List Nat) (acc : Nat → Bool),
      iterate a 10 ((1 : ℚ) / 2) 0 d ds acc 100 =
        (nLoop ((1 : ℚ) / 2) 100 10).bind
          (fun p => refineLoop 1 d ((1 : ℚ) / 2) acc p.1 a p.2 0 0 ds) := by
  refine ⟨by with_unfolding_all decide, by norm_num, ?_⟩
  intro a d ds acc
  have h1 : ¬ ((1 : ℚ) ≤ 1 / 2) := by norm_num
  simp only [iterate, if_neg h1, if_pos (show (0 : ℚ) = 0 by norm_num), if_true]

/-! ## Claim C8 -/

/-- C8 (amended): only a cooling factor `m ≥ 1` is coerced to the default
0.95; `iterate` then behaves exactly as if called with `m = 0.95`.
(A non-positive `m` is not coerced; see the counterexample.) -/
theorem cooling_coercion_c8 (a : Profile) (t m y : ℚ) (d : Int) (ds : List Nat)
    (acc : Nat → Bool) (fuel : Nat) (h : 1 ≤ m) :
    iterate a t m y d ds acc fuel = iterate a t ((19 : ℚ) / 20) y d ds acc fuel := by
  have h2 : ¬ ((1 : ℚ) ≤ 19 / 20) := by norm_num
  simp only [iterate, if_pos h, if_neg h2]

/-- Witness for C8's amended theorem at the concrete coerced factor `m = 2`. -/
theorem cooling_coercion_c8_witness :
    (1 : ℚ) ≤ 2 ∧
    iterate [['A'], ['C']] 10 2 0 8 [0] (fun _ => true) 100 =
      iterate [['A'], ['C']] 10 ((19 : ℚ) / 20) 0 8 [0] (fun _ => true) 100 :=
  ⟨by norm_num,
    cooling_coercion_c8 [['A'], ['C']] 10 2 0 8 [0] (fun _ => true) 100 (by norm_num)⟩

set_option maxRecDepth 400000 in
/-- Counterexample to C8 as stated: the non-positive cooling factor
`m = 0` is outside `(0,1)` but is not replaced by 0.95 — the run with
`m = 0` performs one cycle while the run with `m = 0.95` performs seven,
leaving differently ordered rows. -/
theorem nonpositive_cooling_not_coerced_c8_counterexample :
    iterate [['A'], ['R'], ['N'], ['D']] 10 0 0 8 [0, 0, 0, 0, 0, 0, 0] (fun _ => true) 100 ≠
      iterate [['A'], ['R'], ['N'], ['D']] 10 ((19 : ℚ) / 20) 0 8 [0, 0, 0, 0, 0, 0, 0]
        (fun _ => true) 100 := by
  with_unfolding_all decide

/-! ## Claim C7 (amended): score symmetry of `alignProfiles` -/

theorem pairTerm_comm (a b : Char) (g : Int) :
    (if (a == '-') != (b == '-') then -g
     else if a ≠ '-' ∧ b ≠ '-' then blosum50 a b else 0) =
    (if (b == '-') != (a == '-') then -g
     else if b ≠ '-' ∧ a ≠ '-' then blosum50 b a else 0) := by
  by_cases h1 : a = '-' <;> by_cases h2 : b = '-' <;>
    simp [h1, h2, blosum50_symm a b]

theorem map_sum_comm {α β : Type} (xs : List α) (ys : List β) (g : α → β → Int) :
    (xs.map (fun a => (ys.map (g a)).sum)).sum =
      (ys.map (fun b => (xs.map (fun a => g a b)).sum)).sum := by
  induction xs with
  | nil => simp
  | cons a xs ih =>
    simp only [List.map_cons, List.sum_cons, ih, List.sum_map_add]

theorem scoreColumns_comm (x y : Profile) (i j : Nat) (g : Int) :
    scoreColumns x y i j g = scoreColumns y x j i g := by
  unfold scoreColumns
  rw [map_sum_comm]
  congr 1
  apply List.map_congr_left
  intro yr _
  congr 1
  apply List.map_congr_left
  intro xr _
  exact pairTerm_comm (xr.getD i '?') (yr.getD j '?') _

theorem fMat_base_zero (x y : Profile) (d : Int) : fMat x y d 0 0 = 0 := by
  have h := cellAt_zero x y d (Nat.zero_le (y.headD []).length)
  rw [fMat, h]
  norm_num

/-- Within the DP grid, the score matrix of the swapped call is the
transpose of the score matrix of the original call. -/
theorem fMat_swap (x y : Profile) (d : Int) :
    ∀ n i j, i + j ≤ n → i ≤ (x.headD []).length → j ≤ (y.headD []).length →
      fMat x y d i j = fMat y x d j i := by
  intro n
  induction n with
  | zero =>
    intro i j h _ _
    have hi : i = 0 := by omega
    have hj : j = 0 := by omega
    subst hi; subst hj
    rw [fMat_base_zero, fMat_base_zero]
  | succ n ih =>
    intro i j h hx hy
    match i, j with
    | 0, 0 => rw [fMat_base_zero, fMat_base_zero]
    | 0, j + 1 =>
      rw [fMat, cellAt_zero x y d hy, fMat, cellAt_succ_zero y x d j]
      push_cast
      ring
    | i + 1, 0 =>
      rw [fMat, cellAt_succ_zero x y d i, fMat, cellAt_zero y x d hx]
      push_cast
      ring
    | i + 1, j + 1 =>
      rw [fMat_succ_succ_max x y d i j hy, fMat_succ_succ_max y x d j i hx]
      rw [ih i j (by omega) (by omega) (by omega),
        ih i (j + 1) (by omega) (by omega) (by omega),
        ih (i + 1) j (by omega) (by omega) (by omega),
        scoreColumns_comm x y i j 8]
      rw [max_comm (fMat y x d (j + 1) i - d * (y.length : Int))
        (fMat y x d j (i + 1) - d * (x.length : Int))]

/-! ## Traceback structure: shared lemmas for C5 and C6 -/

theorem getD_eq_get {α : Type} (l : List α) (df : α) {k : Nat} (h : k < l.length) :
    l.getD k df = l.get ⟨k, h⟩ := by
  rw [List.getD_eq_getElem?_getD, List.getElem?_eq_getElem h]
  rfl

theorem getD_map_nil {l : List Row} {k : Nat} (h : k < l.length) :
    (l.map (fun _ => ([] : Row))).getD k [] = [] := by
  rw [List.getD_eq_getElem?_getD, List.getElem?_map, List.getElem?_eq_getElem h]
  rfl

theorem appendGap_length (rows : List Row) : (appendGap rows).length = rows.length := by
  simp [appendGap]

theorem appendColOf_length (rows : List Row) (p : Profile) (idx : Nat) :
    (appendColOf rows p idx).length = min rows.length p.length := by
  simp [appendColOf]

theorem appendGap_getD {rows : List Row} {k : Nat} (h : k < rows.length) :
    (appendGap rows).getD k [] = rows.getD k [] ++ ['-'] := by
  unfold appendGap
  rw [List.getD_eq_getElem?_getD, List.getElem?_map, List.getElem?_eq_getElem h,
    getD_eq_get rows [] h]
  rfl

theorem appendColOf_getD {rows : List Row} {p : Profile} {idx k : Nat}
    (h1 : k < rows.length) (h2 : k < p.length) :
    (appendColOf rows p idx).getD k [] =
      rows.getD k [] ++ [(p.getD k []).getD idx '?'] := by
  unfold appendColOf
  rw [List.getD_eq_getElem?_getD, List.getElem?_zipWith', List.getElem?_eq_getElem h1,
    List.getElem?_eq_getElem h2, getD_eq_get rows [] h1, getD_eq_get p [] h2]
  rfl

theorem take_succ_eq_append_getD (l : Row) {idx : Nat} (h : idx < l.length) :
    l.take (idx + 1) = l.take idx ++ [l.getD idx '?'] := by
  rw [getD_eq_get l '?' h, ← List.take_concat_get' l idx h]
  rfl

/-- In a rectangular profile, every row indexed below the length has the
column count of row 0. -/
theorem rect_row_length {p : Profile} (hp : rect p) {k : Nat} (h : k < p.length) :
    (p.getD k []).length = (p.headD []).length := by
  match p, h with
  | r :: rs, h =>
    have hmem : (r :: rs).getD k [] ∈ r :: rs := by
      rw [getD_eq_get _ _ h]
      exact List.get_mem _ _ _
    exact hp _ hmem r (List.mem_cons_self r rs)

theorem tbFuel_zero_zero (x y : Profile) (d : Int) (fuel : Nat) :
    tbFuel x y d fuel 0 0 = (x.map (fun _ => ([] : Row)), y.map (fun _ => ([] : Row))) := by
  cases fuel <;> rfl

/-- Master invariant of the traceback walk: starting at `(i, j)` inside
the grid, the reconstructed profiles keep the input row counts, all their
rows share one length `L`, row `k` is the corresponding input row prefix
(first `i` resp. `j` columns) with gaps inserted, and — when neither
input profile carries an all-gap column — every one of the `L` produced
columns holds a non-gap symbol in some row. -/
theorem tbFuel_spec (x y : Profile) (d : Int) (hx : rect x) (hy : rect y) :
    ∀ fuel i j, i + j ≤ fuel → i ≤ (x.headD []).length → j ≤ (y.headD []).length →
    ∃ L : Nat,
      (tbFuel x y d fuel i j).1.length = x.length ∧
      (tbFuel x y d fuel i j).2.length = y.length ∧
      (∀ k, k < x.length → ((tbFuel x y d fuel i j).1.getD k []).length = L) ∧
      (∀ k, k < y.length → ((tbFuel x y d fuel i j).2.getD k []).length = L) ∧
      (∀ k, k < x.length → GapIns ((x.getD k []).take i) ((tbFuel x y d fuel i j).1.getD k [])) ∧
      (∀ k, k < y.length → GapIns ((y.getD k []).take j) ((tbFuel x y d fuel i j).2.getD k [])) ∧
      (noAllGapCol x → noAllGapCol y → ∀ c, c < L →
        (∃ k, k < x.length ∧ ((tbFuel x y d fuel i j).1.getD k []).getD c '?' ≠ '-') ∨
        (∃ k, k < y.length ∧ ((tbFuel x y d fuel i j).2.getD k []).getD c '?' ≠ '-')) := by
  have base : ∀ fuel,
      ∃ L : Nat,
      (tbFuel x y d fuel 0 0).1.length = x.length ∧
      (tbFuel x y d fuel 0 0).2.length = y.length ∧
      (∀ k, k < x.length → ((tbFuel x y d fuel 0 0).1.getD k []).length = L) ∧
      (∀ k, k < y.length → ((tbFuel x y d fuel 0 0).2.getD k []).length = L) ∧
      (∀ k, k < x.length → GapIns ((x.getD k []).take 0) ((tbFuel x y d fuel 0 0).1.getD k [])) ∧
      (∀ k, k < y.length → GapIns ((y.getD k []).take 0) ((tbFuel x y d fuel 0 0).2.getD k [])) ∧
      (noAllGapCol x → noAllGapCol y → ∀ c, c < L →
        (∃ k, k < x.length ∧ ((tbFuel x y d fuel 0 0).1.getD k []).getD c '?' ≠ '-') ∨
        (∃ k, k < y.length ∧ ((tbFuel x y d fuel 0 0).2.getD k []).getD c '?' ≠ '-')) := by
    intro fuel
    refine ⟨0, ?_, ?_, ?_, ?_, ?_, ?_, ?_⟩ <;>
      simp only [tbFuel_zero_zero, List.length_map]
    · intro k hk
      rw [getD_map_nil hk]
      rfl
    · intro k hk
      rw [getD_map_nil hk]
      rfl
    · intro k hk
      rw [getD_map_nil hk, List.take_zero]
      exact GapIns.nil
    · intro k hk
      rw [getD_map_nil hk, List.take_zero]
      exact GapIns.nil
    · intro _ _ c hc
      omega
  intro fuel
  induction fuel with
  | zero =>
    intro i j hf hi hj
    have hi0 : i = 0 := by omega
    have hj0 : j = 0 := by omega
    subst hi0; subst hj0
    exact base 0
  | succ fuel ih =>
    intro i j hf hi hj
    match i, j with
    | 0, 0 => exact base (fuel + 1)
    | 0, j + 1 =>
      obtain ⟨L, h1, h2, h3, h4, h5, h6, h7⟩ := ih 0 j (by omega) (by omega) (by omega)
      have e : tbFuel x y d (fuel + 1) 0 (j + 1) =
          (appendGap (tbFuel x y d fuel 0 j).1,
            appendColOf (tbFuel x y d fuel 0 j).2 y j) := rfl
      have hjy : j < (y.headD []).length := by omega
      refine ⟨L + 1, ?_, ?_, ?_, ?_, ?_, ?_, ?_⟩ <;> rw [e]
      · rw [appendGap_length, h1]
      · rw [appendColOf_length, h2, min_self]
      · intro k hk
        rw [appendGap_getD (by omega), List.length_append, h3 k hk, List.length_singleton]
      · intro k hk
        rw [appendColOf_getD (by omega) hk, List.length_append, h4 k hk, List.length_singleton]
      · intro k hk
        rw [appendGap_getD (by omega)]
        exact GapIns.gap (h5 k hk)
      · intro k hk
        rw [appendColOf_getD (by omega) hk]
        have hrow : (y.getD k []).length = (y.headD []).length := rect_row_length hy hk
        have hjr : j < (y.getD k []).length := by omega
        rw [take_succ_eq_append_getD _ hjr]
        exact GapIns.sym _ (h6 k hk)
      · intro hnx hny c hc
        rcases Nat.lt_or_ge c L with hcL | hcL
        · rcases h7 hnx hny c hcL with ⟨k, hk, hne⟩ | ⟨k, hk, hne⟩
          · left
            refine ⟨k, hk, ?_⟩
            rw [appendGap_getD (by omega), List.getD_append _ _ _ _ (by rw [h3 k hk]; omega)]
            exact hne
          · right
            refine ⟨k, hk, ?_⟩
            rw [appendColOf_getD (by omega) hk,
              List.getD_append _ _ _ _ (by rw [h4 k hk]; omega)]
            exact hne
        · have hcL' : c = L := by omega
          subst hcL'
          obtain ⟨r, hr, hrne⟩ := hny j hjy
          obtain ⟨⟨k, hk⟩, rfl⟩ := List.mem_iff_get.mp hr
          right
          refine ⟨k, hk, ?_⟩
          rw [appendColOf_getD (by omega) hk,
            List.getD_append_right _ _ _ _ (by rw [h4 k hk]), h4 k hk, Nat.sub_self,
            getD_eq_get y [] hk]
          exact hrne
    | i + 1, 0 =>
      obtain ⟨L, h1, h2, h3, h4, h5, h6, h7⟩ := ih i 0 (by omega) (by omega) (by omega)
      have e : tbFuel x y d (fuel + 1) (i + 1) 0 =
          (appendColOf (tbFuel x y d fuel i 0).1 x i,
            appendGap (tbFuel x y d fuel i 0).2) := rfl
      have hix : i < (x.headD []).length := by omega
      refine ⟨L + 1, ?_, ?_, ?_, ?_, ?_, ?_, ?_⟩ <;> rw [e]
      · rw [appendColOf_length, h1, min_self]
      · rw [appendGap_length, h2]
      · intro k hk
        rw [appendColOf_getD (by omega) hk, List.length_append, h3 k hk, List.length_singleton]
      · intro k hk
        rw [appendGap_getD (by omega), List.length_append, h4 k hk, List.length_singleton]
      · intro k hk
        rw [appendColOf_getD (by omega) hk]
        have hrow : (x.getD k []).length = (x.headD []).length := rect_row_length hx hk
        have hir : i < (x.getD k []).length := by omega
        rw [take_succ_eq_append_getD _ hir]
        exact GapIns.sym _ (h5 k hk)
      · intro k hk
        rw [appendGap_getD (by omega)]
        exact GapIns.gap (h6 k hk)
      · intro hnx hny c hc
        rcases Nat.lt_or_ge c L with hcL | hcL
        · rcases h7 hnx hny c hcL with ⟨k, hk, hne⟩ | ⟨k, hk, hne⟩
          · left
            refine ⟨k, hk, ?_⟩
            rw [appendColOf_getD (by omega) hk,
              List.getD_append _ _ _ _ (by rw [h3 k hk]; omega)]
            exact hne
          · right
            refine ⟨k, hk, ?_⟩
            rw [appendGap_getD (by omega), List.getD_append _ _ _ _ (by rw [h4 k hk]; omega)]
            exact hne
        · have hcL' : c = L := by omega
          subst hcL'
          obtain ⟨r, hr, hrne⟩ := hnx i hix
          obtain ⟨⟨k, hk⟩, rfl⟩ := List.mem_iff_get.mp hr
          left
          refine ⟨k, hk, ?_⟩
          rw [appendColOf_getD (by omega) hk,
            List.getD_append_right _ _ _ _ (by rw [h3 k hk]), h3 k hk, Nat.sub_self,
            getD_eq_get x [] hk]
          exact hrne
    | i + 1, j + 1 =>
      have hix : i < (x.headD []).length := by omega
      have hjy : j < (y.headD []).length := by omega
      rcases htm : tMat x y d (i + 1) (j + 1) with _ | _ | _
      · -- diagonal step
        obtain ⟨L, h1, h2, h3, h4, h5, h6, h7⟩ := ih i j (by omega) (by omega) (by omega)
        have e : tbFuel x y d (fuel + 1) (i + 1) (j + 1) =
            (appendColOf (tbFuel x y d fuel i j).1 x i,
              appendColOf (tbFuel x y d fuel i j).2 y j) := by
          show (match tMat x y d (i + 1) (j + 1) with
            | Dir.D =>
              let p := tbFuel x y d fuel i j
              (appendColOf p.1 x i, appendColOf p.2 y j)
            | Dir.T =>
              let p := tbFuel x y d fuel i (j + 1)
              (appendColOf p.1 x i, appendGap p.2)
            | Dir.L =>
              let p := tbFuel x y d fuel (i + 1) j
              (appendGap p.1, appendColOf p.2 y j)) = _
          rw [htm]
        refine ⟨L + 1, ?_, ?_, ?_, ?_, ?_, ?_, ?_⟩ <;> rw [e]
        · rw [appendColOf_length, h1, min_self]
        · rw [appendColOf_length, h2, min_self]
        · intro k hk
          rw [appendColOf_getD (by omega) hk, List.length_append, h3 k hk, List.length_singleton]
        · intro k hk
          rw [appendColOf_getD (by omega) hk, List.length_append, h4 k hk, List.length_singleton]
        · intro k hk
          rw [appendColOf_getD (by omega) hk]
          have hrow : (x.getD k []).length = (x.headD []).length := rect_row_length hx hk
          rw [take_succ_eq_append_getD _ (by omega)]
          exact GapIns.sym _ (h5 k hk)
        · intro k hk
          rw [appendColOf_getD (by omega) hk]
          have hrow : (y.getD k []).length = (y.headD []).length := rect_row_length hy hk
          rw [take_succ_eq_append_getD _ (by omega)]
          exact GapIns.sym _ (h6 k hk)
        · intro hnx hny c hc
          rcases Nat.lt_or_ge c L with hcL | hcL
          · rcases h7 hnx hny c hcL with ⟨k, hk, hne⟩ | ⟨k, hk, hne⟩
            · left
              refine ⟨k, hk, ?_⟩
              rw [appendColOf_getD (by omega) hk,
                List.getD_append _ _ _ _ (by rw [h3 k hk]; omega)]
              exact hne
            · right
              refine ⟨k, hk, ?_⟩
              rw [appendColOf_getD (by omega) hk,
                List.getD_append _ _ _ _ (by rw [h4 k hk]; omega)]
              exact hne
          · have hcL' : c = L := by omega
            subst hcL'
            obtain ⟨r, hr, hrne⟩ := hnx i hix
            obtain ⟨⟨k, hk⟩, rfl⟩ := List.mem_iff_get.mp hr
            left
            refine ⟨k, hk, ?_⟩
            rw [appendColOf_getD (by omega) hk,
              List.getD_append_right _ _ _ _ (by rw [h3 k hk]), h3 k hk, Nat.sub_self,
              getD_eq_get x [] hk]
            exact hrne
      · -- top step
        obtain ⟨L, h1, h2, h3, h4, h5, h6, h7⟩ := ih i (j + 1) (by omega) (by omega) (by omega)
        have e : tbFuel x y d (fuel + 1) (i + 1) (j + 1) =
            (appendColOf (tbFuel x y d fuel i (j + 1)).1 x i,
              appendGap (tbFuel x y d fuel i (j + 1)).2) := by
          show (match tMat x y d (i + 1) (j + 1) with
            | Dir.D =>
              let p := tbFuel x y d fuel i j
              (appendColOf p.1 x i, appendColOf p.2 y j)
            | Dir.T =>
              let p := tbFuel x y d fuel i (j + 1)
              (appendColOf p.1 x i, appendGap p.2)
            | Dir.L =>
              let p := tbFuel x y d fuel (i + 1) j
              (appendGap p.1, appendColOf p.2 y j)) = _
          rw [htm]
        refine ⟨L + 1, ?_, ?_, ?_, ?_, ?_, ?_, ?_⟩ <;> rw [e]
        · rw [appendColOf_length, h1, min_self]
        · rw [appendGap_length, h2]
        · intro k hk
          rw [appendColOf_getD (by omega) hk, List.length_append, h3 k hk, List.length_singleton]
        · intro k hk
          rw [appendGap_getD (by omega), List.length_append, h4 k hk, List.length_singleton]
        · intro k hk
          rw [appendColOf_getD (by omega) hk]
          have hrow : (x.getD k []).length = (x.headD []).length := rect_row_length hx hk
          rw [take_succ_eq_append_getD _ (by omega)]
          exact GapIns.sym _ (h5 k hk)
        · intro k hk
          rw [appendGap_getD (by omega)]
          exact GapIns.gap (h6 k hk)
        · intro hnx hny c hc
          rcases Nat.lt_or_ge c L with hcL | hcL
          · rcases h7 hnx hny c hcL with ⟨k, hk, hne⟩ | ⟨k, hk, hne⟩
            · left
              refine ⟨k, hk, ?_⟩
              rw [appendColOf_getD (by omega) hk,
                List.getD_append _ _ _ _ (by rw [h3 k hk]; omega)]
              exact hne
            · right
              refine ⟨k, hk, ?_⟩
              rw [appendGap_getD (by omega),
                List.getD_append _ _ _ _ (by rw [h4 k hk]; omega)]
              exact hne
          · have hcL' : c = L := by omega
            subst hcL'
            obtain ⟨r, hr, hrne⟩ := hnx i hix
            obtain ⟨⟨k, hk⟩, rfl⟩ := List.mem_iff_get.mp hr
            left
            refine ⟨k, hk, ?_⟩
            rw [appendColOf_getD (by omega) hk,
              List.getD_append_right _ _ _ _ (by rw [h3 k hk]), h3 k hk, Nat.sub_self,
              getD_eq_get x [] hk]
            exact hrne
      · -- left step
        obtain ⟨L, h1, h2, h3, h4, h5, h6, h7⟩ := ih (i + 1) j (by omega) (by omega) (by omega)
        have e : tbFuel x y d (fuel + 1) (i + 1) (j + 1) =
            (appendGap (tbFuel x y d fuel (i + 1) j).1,
              appendColOf (tbFuel x y d fuel (i + 1) j).2 y j) := by
          show (match tMat x y d (i + 1) (j + 1) with
            | Dir.D =>
              let p := tbFuel x y d fuel i j
              (appendColOf p.1 x i, appendColOf p.2 y j)
            | Dir.T =>
              let p := tbFuel x y d fuel i (j + 1)
              (appendColOf p.1 x i, appendGap p.2)
            | Dir.L =>
              let p := tbFuel x y d fuel (i + 1) j
              (appendGap p.1, appendColOf p.2 y j)) = _
          rw [htm]
        refine ⟨L + 1, ?_, ?_, ?_, ?_, ?_, ?_, ?_⟩ <;> rw [e]
        · rw [appendGap_length, h1]
        · rw [appendColOf_length, h2, min_self]
        · intro k hk
          rw [appendGap_getD (by omega), List.length_append, h3 k hk, List.length_singleton]
        · intro k hk
          rw [appendColOf_getD (by omega) hk, List.length_append, h4 k hk, List.length_singleton]
        · intro k hk
          rw [appendGap_getD (by omega)]
          exact GapIns.gap (h5 k hk)
        · intro k hk
          rw [appendColOf_getD (by omega) hk]
          have hrow : (y.getD k []).length = (y.headD []).length := rect_row_length hy hk
          rw [take_succ_eq_append_getD _ (by omega)]
          exact GapIns.sym _ (h6 k hk)
        · intro hnx hny c hc
          rcases Nat.lt_or_ge c L with hcL | hcL
          · rcases h7 hnx hny c hcL with ⟨k, hk, hne⟩ | ⟨k, hk, hne⟩
            · left
              refine ⟨k, hk, ?_⟩
              rw [appendGap_getD (by omega),
                List.getD_append _ _ _ _ (by rw [h3 k hk]; omega)]
              exact hne
            · right
              refine ⟨k, hk, ?_⟩
              rw [appendColOf_getD (by omega) hk,
                List.getD_append _ _ _ _ (by rw [h4 k hk]; omega)]
              exact hne
          · have hcL' : c = L := by omega
            subst hcL'
            obtain ⟨r, hr, hrne⟩ := hny j hjy
            obtain ⟨⟨k, hk⟩, rfl⟩ := List.mem_iff_get.mp hr
            right
            refine ⟨k, hk, ?_⟩
            rw [appendColOf_getD (by omega) hk,
              List.getD_append_right _ _ _ _ (by rw [h4 k hk]), h4 k hk, Nat.sub_self,
              getD_eq_get y [] hk]
            exact hrne

/-! ## Claim C5 -/

/-- C5: for non-empty rectangular profiles, `alignProfiles` returns
output profiles whose rows all share one common column count, and each
output row is the corresponding input row with zero or more gap symbols
inserted (the original symbols appear in order and unchanged). -/
theorem alignProfiles_gap_insertion_c5 (x y : Profile) (d : Int)
    (_hnex : x ≠ []) (_hney : y ≠ []) (hx : rect x) (hy : rect y) :
    (∃ L, (∀ r ∈ (alignProfiles x y d).2.1, r.length = L) ∧
      (∀ r ∈ (alignProfiles x y d).2.2, r.length = L)) ∧
    (∀ k, k < x.length →
      GapIns (x.getD k []) ((alignProfiles x y d).2.1.getD k [])) ∧
    (∀ k, k < y.length →
      GapIns (y.getD k []) ((alignProfiles x y d).2.2.getD k [])) := by
  obtain ⟨L, h1, h2, h3, h4, h5, h6, _⟩ := tbFuel_spec x y d hx hy
    ((x.headD []).length + (y.headD []).length) (x.headD []).length
    (y.headD []).length le_rfl le_rfl le_rfl
  refine ⟨⟨L, ?_, ?_⟩, ?_, ?_⟩
  · intro r hr
    obtain ⟨⟨k, hk⟩, rfl⟩ := List.mem_iff_get.mp hr
    have hk' : k < x.length := by rw [← h1]; exact hk
    rw [← getD_eq_get _ [] hk]
    exact h3 k hk'
  · intro r hr
    obtain ⟨⟨k, hk⟩, rfl⟩ := List.mem_iff_get.mp hr
    have hk' : k < y.length := by rw [← h2]; exact hk
    rw [← getD_eq_get _ [] hk]
    exact h4 k hk'
  · intro k hk
    have h := h5 k hk
    rwa [List.take_of_length_le (le_of_eq (rect_row_length hx hk))] at h
  · intro k hk
    have h := h6 k hk
    rwa [List.take_of_length_le (le_of_eq (rect_row_length hy hk))] at h

/-- Witness for C5 at the concrete call `alignProfiles([['A','C']], [['C']], 8)`. -/
theorem alignProfiles_gap_insertion_c5_witness :
    (∃ L, (∀ r ∈ (alignProfiles [['A', 'C']] [['C']] 8).2.1, r.length = L) ∧
      (∀ r ∈ (alignProfiles [['A', 'C']] [['C']] 8).2.2, r.length = L)) ∧
    (∀ k, k < ([['A', 'C']] : Profile).length →
      GapIns (([['A', 'C']] : Profile).getD k [])
        ((alignProfiles [['A', 'C']] [['C']] 8).2.1.getD k [])) ∧
    (∀ k, k < ([['C']] : Profile).length →
      GapIns (([['C']] : Profile).getD k [])
        ((alignProfiles [['A', 'C']] [['C']] 8).2.2.getD k [])) :=
  alignProfiles_gap_insertion_c5 [['A', 'C']] [['C']] 8
    (by decide) (by decide) (by decide) (by decide)

/-! ## Claim C6 (amended) -/

/-- C6 (amended): provided neither input profile itself carries an
all-gap column (and both are non-empty and rectangular), the merged
alignment produced by `alignProfiles` — the rows of `X'` followed by the
rows of `Y'` — contains no column consisting entirely of gap symbols:
every column index below the (shared) output row length has a non-gap
symbol in some output row.  Without that proviso the claim fails; see the
counterexample. -/
theorem merged_no_all_gap_column_c6 (x y : Profile) (d : Int)
    (_hnex : x ≠ []) (_hney : y ≠ []) (hx : rect x) (hy : rect y)
    (hnx : noAllGapCol x) (hny : noAllGapCol y) :
    ∀ c, ∀ r ∈ (alignProfiles x y d).2.1 ++ (alignProfiles x y d).2.2, c < r.length →
      ∃ r2 ∈ (alignProfiles x y d).2.1 ++ (alignProfiles x y d).2.2,
        r2.getD c '?' ≠ '-' := by
  obtain ⟨L, h1, h2, h3, h4, h5, h6, h7⟩ := tbFuel_spec x y d hx hy
    ((x.headD []).length + (y.headD []).length) (x.headD []).length
    (y.headD []).length le_rfl le_rfl le_rfl
  intro c r hr hc
  have hcL : c < L := by
    rcases List.mem_append.mp hr with hrx | hry
    · obtain ⟨⟨k, hk⟩, rfl⟩ := List.mem_iff_get.mp hrx
      have hk' : k < x.length := by rw [← h1]; exact hk
      rw [← getD_eq_get _ [] hk] at hc
      exact lt_of_lt_of_eq hc (h3 k hk')
    · obtain ⟨⟨k, hk⟩, rfl⟩ := List.mem_iff_get.mp hry
      have hk' : k < y.length := by rw [← h2]; exact hk
      rw [← getD_eq_get _ [] hk] at hc
      exact lt_of_lt_of_eq hc (h4 k hk')
  rcases h7 hnx hny c hcL with ⟨k, hk, hne⟩ | ⟨k, hk, hne⟩
  · refine ⟨(alignProfiles x y d).2.1.getD k [], ?_, hne⟩
    apply List.mem_append_left
    have hk2 : k < (alignProfiles x y d).2.1.length := by
      show k < (tbFuel x y d ((x.headD []).length + (y.headD []).length)
        (x.headD []).length (y.headD []).length).1.length
      rw [h1]
      exact hk
    rw [getD_eq_get _ [] hk2]
    exact List.get_mem _ _ _
  · refine ⟨(alignProfiles x y d).2.2.getD k [], ?_, hne⟩
    apply List.mem_append_right
    have hk2 : k < (alignProfiles x y d).2.2.length := by
      show k < (tbFuel x y d ((x.headD []).length + (y.headD []).length)
        (x.headD []).length (y.headD []).length).2.length
      rw [h2]
      exact hk
    rw [getD_eq_get _ [] hk2]
    exact List.get_mem _ _ _

/-- Witness for the amended C6 at the concrete call
`alignProfiles([['A','G']], [['C']], 8)`, instantiated at column 1 and
the first merged row. -/
theorem merged_no_all_gap_column_c6_witness :
    ∃ r2 ∈ (alignProfiles [['A', 'G']] [['C']] 8).2.1 ++
        (alignProfiles [['A', 'G']] [['C']] 8).2.2,
      r2.getD 1 '?' ≠ '-' :=
  merged_no_all_gap_column_c6 [['A', 'G']] [['C']] 8
    (by decide) (by decide) (by decide) (by decide) (by decide) (by decide)
    1 ['A', 'G'] (by decide) (by decide)

/-- C7 (amended): `alignProfiles(Y, X, d)` returns the same score as
`alignProfiles(X, Y, d)`.  (The gapped outputs need not be the swapped
pair: a top/left tie is resolved asymmetrically — see the
counterexample.) -/
theorem alignProfiles_score_swap_c7 (x y : Profile) (d : Int) :
    (alignProfiles y x d).1 = (alignProfiles x y d).1 := by
  show fMat y x d ((y.headD []).length) ((x.headD []).length) =
    fMat x y d ((x.headD []).length) ((y.headD []).length)
  exact (fMat_swap x y d ((x.headD []).length + (y.headD []).length)
    ((x.headD []).length) ((y.headD []).length) le_rfl le_rfl le_rfl).symm

/-! ## Claim C2: reduction to classical pairwise Needleman-Wunsch -/

theorem getD_ne_gap {s : List Char} (hs : '-' ∉ s) (i : Nat) : s.getD i '?' ≠ '-' := by
  rcases Nat.lt_or_ge i s.length with h | h
  · rw [getD_eq_get _ _ h]
    intro hEq
    exact hs (hEq ▸ List.get_mem s i h)
  · rw [List.getD_eq_default _ _ h]
    decide

/-- On one-row, gap-free profiles, the cross column score degenerates to
a bare substitution lookup. -/
theorem scoreColumns_single (s1 s2 : List Char) (hs1 : '-' ∉ s1) (hs2 : '-' ∉ s2)
    (i j : Nat) :
    scoreColumns [s1] [s2] i j 8 = blosum50 (s1.getD i '?') (s2.getD j '?') := by
  have ha := getD_ne_gap hs1 i
  have hb := getD_ne_gap hs2 j
  have ha' : (s1.getD i '?' == '-') = false := beq_eq_false_iff_ne.mpr ha
  have hb' : (s2.getD j '?' == '-') = false := beq_eq_false_iff_ne.mpr hb
  simp only [scoreColumns, List.map_cons, List.map_nil, List.sum_cons, List.sum_nil,
    add_zero]
  rw [if_neg (by rw [ha', hb']; decide), if_pos ⟨ha, hb⟩]

theorem matRows_single (s1 s2 : List Char) (d : Int) (hs1 : '-' ∉ s1) (hs2 : '-' ∉ s2) :
    ∀ i, matRows [s1] [s2] d i = nwRows s1 s2 d i := by
  have hbr : ∀ i prevRow jj,
      buildRow [s1] [s2] d i prevRow jj = nwBuildRow s1 s2 d i prevRow jj := by
    intro i prevRow jj
    induction jj with
    | zero =>
      simp only [buildRow, nwBuildRow, List.length_cons, List.length_nil, zero_add,
        Nat.cast_one, mul_one]
    | succ jj ihj =>
      simp only [buildRow, nwBuildRow, ihj, scoreColumns_single s1 s2 hs1 hs2,
        List.length_cons, List.length_nil, zero_add, Nat.cast_one, mul_one]
  intro i
  induction i with
  | zero =>
    simp only [matRows, nwRows, List.headD_cons, List.length_cons, List.length_nil,
      zero_add, Nat.cast_one, mul_one]
  | succ i ihi =>
    show buildRow [s1] [s2] d i (matRows [s1] [s2] d i) (([s2].headD []).length) = _
    rw [ihi, hbr]
    rfl

theorem cellAt_single (s1 s2 : List Char) (d : Int) (hs1 : '-' ∉ s1) (hs2 : '-' ∉ s2)
    (i j : Nat) : cellAt [s1] [s2] d i j = nwCellAt s1 s2 d i j := by
  unfold cellAt nwCellAt
  rw [matRows_single s1 s2 d hs1 hs2]

theorem tbFuel_single (s1 s2 : List Char) (d : Int) (hs1 : '-' ∉ s1) (hs2 : '-' ∉ s2) :
    ∀ fuel i j, tbFuel [s1] [s2] d fuel i j =
      ([(nwTbFuel s1 s2 d fuel i j).1], [(nwTbFuel s1 s2 d fuel i j).2]) := by
  intro fuel
  induction fuel with
  | zero => intro i j; rfl
  | succ fuel ih =>
    intro i j
    match i, j with
    | 0, 0 => rfl
    | 0, j + 1 =>
      show (appendGap (tbFuel [s1] [s2] d fuel 0 j).1,
        appendColOf (tbFuel [s1] [s2] d fuel 0 j).2 [s2] j) = _
      rw [ih 0 j]
      rfl
    | i + 1, 0 =>
      show (appendColOf (tbFuel [s1] [s2] d fuel i 0).1 [s1] i,
        appendGap (tbFuel [s1] [s2] d fuel i 0).2) = _
      rw [ih i 0]
      rfl
    | i + 1, j + 1 =>
      have ht : tMat [s1] [s2] d (i + 1) (j + 1) = (nwCellAt s1 s2 d (i + 1) (j + 1)).2 := by
        rw [tMat, cellAt_single s1 s2 d hs1 hs2]
      rcases hdir : (nwCellAt s1 s2 d (i + 1) (j + 1)).2 with _ | _ | _
      · have e1 : tbFuel [s1] [s2] d (fuel + 1) (i + 1) (j + 1) =
            (appendColOf (tbFuel [s1] [s2] d fuel i j).1 [s1] i,
              appendColOf (tbFuel [s1] [s2] d fuel i j).2 [s2] j) := by
          show (match tMat [s1] [s2] d (i + 1) (j + 1) with
            | Dir.D =>
              let p := tbFuel [s1] [s2] d fuel i j
              (appendColOf p.1 [s1] i, appendColOf p.2 [s2] j)
            | Dir.T =>
              let p := tbFuel [s1] [s2] d fuel i (j + 1)
              (appendColOf p.1 [s1] i, appendGap p.2)
            | Dir.L =>
              let p := tbFuel [s1] [s2] d fuel (i + 1) j
              (appendGap p.1, appendColOf p.2 [s2] j)) = _
          rw [ht, hdir]
        have e2 : nwTbFuel s1 s2 d (fuel + 1) (i + 1) (j + 1) =
            ((nwTbFuel s1 s2 d fuel i j).1 ++ [s1.getD i '?'],
              (nwTbFuel s1 s2 d fuel i j).2 ++ [s2.getD j '?']) := by
          show (match (nwCellAt s1 s2 d (i + 1) (j + 1)).2 with
            | Dir.D =>
              let p := nwTbFuel s1 s2 d fuel i j
              (p.1 ++ [s1.getD i '?'], p.2 ++ [s2.getD j '?'])
            | Dir.T =>
              let p := nwTbFuel s1 s2 d fuel i (j + 1)
              (p.1 ++ [s1.getD i '?'], p.2 ++ ['-'])
            | Dir.L =>
              let p := nwTbFuel s1 s2 d fuel (i + 1) j
              (p.1 ++ ['-'], p.2 ++ [s2.getD j '?'])) = _
          rw [hdir]
        rw [e1, e2, ih i j]
        rfl
      · have e1 : tbFuel [s1] [s2] d (fuel + 1) (i + 1) (j + 1) =
            (appendColOf (tbFuel [s1] [s2] d fuel i (j + 1)).1 [s1] i,
              appendGap (tbFuel [s1] [s2] d fuel i (j + 1)).2) := by
          show (match tMat [s1] [s2] d (i + 1) (j + 1) with
            | Dir.D =>
              let p := tbFuel [s1] [s2] d fuel i j
              (appendColOf p.1 [s1] i, appendColOf p.2 [s2] j)
            | Dir.T =>
              let p := tbFuel [s1] [s2] d fuel i (j + 1)
              (appendColOf p.1 [s1] i, appendGap p.2)
            | Dir.L =>
              let p := tbFuel [s1] [s2] d fuel (i + 1) j
              (appendGap p.1, appendColOf p.2 [s2] j)) = _
          rw [ht, hdir]
        have e2 : nwTbFuel s1 s2 d (fuel + 1) (i + 1) (j + 1) =
            ((nwTbFuel s1 s2 d fuel i (j + 1)).1 ++ [s1.getD i '?'],
              (nwTbFuel s1 s2 d fuel i (j + 1)).2 ++ ['-']) := by
          show (match (nwCellAt s1 s2 d (i + 1) (j + 1)).2 with
            | Dir.D =>
              let p := nwTbFuel s1 s2 d fuel i j
              (p.1 ++ [s1.getD i '?'], p.2 ++ [s2.getD j '?'])
            | Dir.T =>
              let p := nwTbFuel s1 s2 d fuel i (j + 1)
              (p.1 ++ [s1.getD i '?'], p.2 ++ ['-'])
            | Dir.L =>
              let p := nwTbFuel s1 s2 d fuel (i + 1) j
              (p.1 ++ ['-'], p.2 ++ [s2.getD j '?'])) = _
          rw [hdir]
        rw [e1, e2, ih i (j + 1)]
        rfl
      · have e1 : tbFuel [s1] [s2] d (fuel + 1) (i + 1) (j + 1) =
            (appendGap (tbFuel [s1] [s2] d fuel (i + 1) j).1,
              appendColOf (tbFuel [s1] [s2] d fuel (i + 1) j).2 [s2] j) := by
          show (match tMat [s1] [s2] d (i + 1) (j + 1) with
            | Dir.D =>
              let p := tbFuel [s1] [s2] d fuel i j
              (appendColOf p.1 [s1] i, appendColOf p.2 [s2] j)
            | Dir.T =>
              let p := tbFuel [s1] [s2] d fuel i (j + 1)
              (appendColOf p.1 [s1] i, appendGap p.2)
            | Dir.L =>
              let p := tbFuel [s1] [s2] d fuel (i + 1) j
              (appendGap p.1, appendColOf p.2 [s2] j)) = _
          rw [ht, hdir]
        have e2 : nwTbFuel s1 s2 d (fuel + 1) (i + 1) (j + 1) =
            ((nwTbFuel s1 s2 d fuel (i + 1) j).1 ++ ['-'],
              (nwTbFuel s1 s2 d fuel (i + 1) j).2 ++ [s2.getD j '?']) := by
          show (match (nwCellAt s1 s2 d (i + 1) (j + 1)).2 with
            | Dir.D =>
              let p := nwTbFuel s1 s2 d fuel i j
              (p.1 ++ [s1.getD i '?'], p.2 ++ [s2.getD j '?'])
            | Dir.T =>
              let p := nwTbFuel s1 s2 d fuel i (j + 1)
              (p.1 ++ [s1.getD i '?'], p.2 ++ ['-'])
            | Dir.L =>
              let p := nwTbFuel s1 s2 d fuel (i + 1) j
              (p.1 ++ ['-'], p.2 ++ [s2.getD j '?'])) = _
          rw [hdir]
        rw [e1, e2, ih (i + 1) j]
        rfl

/-- C2: on two single-row profiles holding bare (gap-free) sequences,
`alignProfiles` returns exactly the score and the pair of gapped
sequences of classical pairwise Needleman-Wunsch with linear gap penalty
`d` under the same substitution table (with the source's fixed tie
order). -/
theorem alignProfiles_single_row_nw_c2 (s1 s2 : List Char) (d : Int)
    (hs1 : '-' ∉ s1) (hs2 : '-' ∉ s2) :
    alignProfiles [s1] [s2] d =
      ((classicalNW s1 s2 d).1, [(classicalNW s1 s2 d).2.1],
        [(classicalNW s1 s2 d).2.2]) := by
  unfold alignProfiles classicalNW traceback
  show (fMat [s1] [s2] d s1.length s2.length,
    tbFuel [s1] [s2] d (s1.length + s2.length) s1.length s2.length) = _
  rw [fMat, cellAt_single s1 s2 d hs1 hs2, tbFuel_single s1 s2 d hs1 hs2]

/-- Witness for C2 at the textbook golden input: sequences `HEAGAWGHEE`
and `PAWHEAE`, gap penalty 8, BLOSUM50 — including the golden score 1 of
the deterministic traceback. -/
theorem alignProfiles_single_row_nw_c2_witness :
    ('-' ∉ "HEAGAWGHEE".toList) ∧ ('-' ∉ "PAWHEAE".toList) ∧
    alignProfiles ["HEAGAWGHEE".toList] ["PAWHEAE".toList] 8 =
      ((classicalNW "HEAGAWGHEE".toList "PAWHEAE".toList 8).1,
        [(classicalNW "HEAGAWGHEE".toList "PAWHEAE".toList 8).2.1],
        [(classicalNW "HEAGAWGHEE".toList "PAWHEAE".toList 8).2.2]) ∧
    (alignProfiles ["HEAGAWGHEE".toList] ["PAWHEAE".toList] 8).1 = 1 :=
  ⟨by decide, by decide,
    alignProfiles_single_row_nw_c2 "HEAGAWGHEE".toList "PAWHEAE".toList 8
      (by decide) (by decide),
    by decide⟩

/-! ## Claim C10: `iterate` preserves rows up to gap placement -/

theorem GapIns_strip {a b : Row} (h : GapIns a b) : stripGaps b = stripGaps a := by
  induction h with
  | nil => rfl
  | sym c h ih =>
    simp only [stripGaps, List.filter_append] at *
    rw [ih]
  | gap h ih =>
    simp only [stripGaps, List.filter_append] at *
    rw [ih]
    simp [stripGaps]

theorem stripGaps_idem (r : Row) : stripGaps (stripGaps r) = stripGaps r := by
  simp [stripGaps, List.filter_filter]

theorem headD_eq_getD_zero (l : List Row) : l.headD [] = l.getD 0 [] := by
  cases l <;> rfl

/-- Pointwise (by index) equality of gap-stripped rows lifts to the
mapped lists. -/
theorem map_strip_eq_of_getD {l1 l2 : List Row} (h : l1.length = l2.length)
    (hk : ∀ k, k < l2.length → stripGaps (l1.getD k []) = stripGaps (l2.getD k [])) :
    l1.map stripGaps = l2.map stripGaps := by
  apply List.ext_getElem (by simp [h])
  intro n h1 h2
  simp only [List.getElem_map]
  have h1' : n < l1.length := by simpa using h1
  have h2' : n < l2.length := by simpa using h2
  have := hk n h2'
  rwa [getD_eq_get _ _ h1', getD_eq_get _ _ h2'] at this

theorem rect_singleton (r : Row) : rect [r] := by
  intro r1 h1 r2 h2
  simp only [List.mem_singleton] at h1 h2
  rw [h1, h2]

/-- Shape and content facts about one `alignProfiles` call, packaged for
the refinement-driver induction. -/
theorem alignProfiles_parts (x y : Profile) (d : Int) (hx : rect x) (hy : rect y) :
    ∃ L,
      (alignProfiles x y d).2.1.length = x.length ∧
      (alignProfiles x y d).2.2.length = y.length ∧
      (∀ r ∈ (alignProfiles x y d).2.1, r.length = L) ∧
      (∀ r ∈ (alignProfiles x y d).2.2, r.length = L) ∧
      (∀ k, k < x.length →
        stripGaps ((alignProfiles x y d).2.1.getD k []) = stripGaps (x.getD k [])) ∧
      (∀ k, k < y.length →
        stripGaps ((alignProfiles x y d).2.2.getD k []) = stripGaps (y.getD k [])) := by
  obtain ⟨L, h1, h2, h3, h4, h5, h6, _⟩ := tbFuel_spec x y d hx hy
    ((x.headD []).length + (y.headD []).length) (x.headD []).length
    (y.headD []).length le_rfl le_rfl le_rfl
  refine ⟨L, h1, h2, ?_, ?_, ?_, ?_⟩
  · intro r hr
    obtain ⟨⟨k, hk⟩, rfl⟩ := List.mem_iff_get.mp hr
    have hk' : k < x.length := by rw [← h1]; exact hk
    rw [← getD_eq_get _ [] hk]
    exact h3 k hk'
  · intro r hr
    obtain ⟨⟨k, hk⟩, rfl⟩ := List.mem_iff_get.mp hr
    have hk' : k < y.length := by rw [← h2]; exact hk
    rw [← getD_eq_get _ [] hk]
    exact h4 k hk'
  · intro k hk
    have h := h5 k hk
    rw [List.take_of_length_le (le_of_eq (rect_row_length hx hk))] at h
    exact GapIns_strip h
  · intro k hk
    have h := h6 k hk
    rw [List.take_of_length_le (le_of_eq (rect_row_length hy hk))] at h
    exact GapIns_strip h

/-- One re-insertion loop preserves row counts (adding one row per
sequence), rectangularity, non-emptiness, and the stripped rows. -/
theorem reinsertAll_spec (d : Int) :
    ∀ (seqs : List Row) (a : Profile), rect a → a ≠ [] →
      (reinsertAll d a seqs).length = a.length + seqs.length ∧
      rect (reinsertAll d a seqs) ∧ reinsertAll d a seqs ≠ [] ∧
      ((reinsertAll d a seqs).map stripGaps).Perm
        (a.map stripGaps ++ seqs.map stripGaps) := by
  intro seqs
  induction seqs with
  | nil =>
    intro a hrect hne
    refine ⟨by simp [reinsertAll], by simpa [reinsertAll] using hrect, by simpa [reinsertAll] using hne, ?_⟩
    simp [reinsertAll]
  | cons seq rest ih =>
    intro a hrect hne
    obtain ⟨L, h1, h2, h3, h4, h5, h6⟩ := alignProfiles_parts a [seq] d hrect (rect_singleton seq)
    set r := alignProfiles a [seq] d with hr
    have hlen2 : r.2.2.length = 1 := by rw [h2]; rfl
    have hy0mem : r.2.2.headD [] ∈ r.2.2 := by
      rw [headD_eq_getD_zero, getD_eq_get _ _ (by omega)]
      exact List.get_mem _ _ _
    have ha' : (r.2.1 ++ [r.2.2.headD []]).length = a.length + 1 := by
      simp [h1]
    have hrect' : rect (r.2.1 ++ [r.2.2.headD []]) := by
      intro r1 hr1 r2 hr2
      have hL : ∀ q ∈ r.2.1 ++ [r.2.2.headD []], q.length = L := by
        intro q hq
        rcases List.mem_append.mp hq with hq | hq
        · exact h3 q hq
        · rw [List.mem_singleton.mp hq]
          exact h4 _ hy0mem
      rw [hL r1 hr1, hL r2 hr2]
    have hne' : (r.2.1 ++ [r.2.2.headD []]) ≠ [] := by
      intro hE
      have := congrArg List.length hE
      rw [ha'] at this
      simp at this
    have hstr : (r.2.1 ++ [r.2.2.headD []]).map stripGaps =
        a.map stripGaps ++ [stripGaps seq] := by
      rw [List.map_append]
      congr 1
      · exact map_strip_eq_of_getD (by rw [h1]) (fun k hk => h5 k hk)
      · show [stripGaps (r.2.2.headD [])] = [stripGaps seq]
        rw [headD_eq_getD_zero]
        rw [h6 0 (by simp)]
        rfl
    obtain ⟨g1, g2, g3, g4⟩ := ih (r.2.1 ++ [r.2.2.headD []]) hrect' hne'
    refine ⟨?_, ?_, ?_, ?_⟩
    · show (reinsertAll d (r.2.1 ++ [r.2.2.headD []]) rest).length = a.length + (rest.length + 1)
      rw [g1, ha']
      omega
    · exact g2
    · exact g3
    · show ((reinsertAll d (r.2.1 ++ [r.2.2.headD []]) rest).map stripGaps).Perm
        (a.map stripGaps ++ (stripGaps seq :: rest.map stripGaps))
      refine g4.trans ?_
      rw [hstr, List.append_assoc]
      rfl

theorem popAt_spec {α : Type} {l : List α} {i : Nat} {v : α} {rest : List α}
    (h : popAt l i = some (v, rest)) :
    rest.length + 1 = l.length ∧ l.Perm (v :: rest) ∧ v ∈ l ∧ ∀ r ∈ rest, r ∈ l := by
  unfold popAt at h
  split at h
  case isTrue hi =>
    have h2 := Option.some.inj h
    rw [Prod.ext_iff] at h2
    obtain ⟨h3, h4⟩ := h2
    subst h3
    subst h4
    refine ⟨?_, ?_, List.get_mem _ _ _, ?_⟩
    · simp only [List.length_append, List.length_take, List.length_drop]
      omega
    · have hsplit : l = l.take i ++ l[i] :: l.drop (i + 1) := by
        conv_lhs => rw [← List.take_append_drop i l, List.drop_eq_getElem_cons hi]
      conv_lhs => rw [hsplit]
      exact List.perm_middle
    · intro r hr
      rcases List.mem_append.mp hr with hr | hr
      · exact List.take_subset _ _ hr
      · exact List.drop_subset _ _ hr
  case isFalse => exact absurd h (by simp)

/-- The removal loop pops `n` rows: the row count drops by `n`, the
stripped removed rows are returned, and the multiset of stripped rows is
preserved overall. -/
theorem removeRows_spec :
    ∀ (n : Nat) (a : Profile) (ds : List Nat) (a2 : Profile) (seqs : List Row)
      (ds2 : List Nat), removeRows n a ds = some (a2, seqs, ds2) →
    a2.length + n = a.length ∧ seqs.length = n ∧
    (a.map stripGaps).Perm (a2.map stripGaps ++ seqs) ∧
    (∀ s ∈ seqs, ∃ r ∈ a, s = stripGaps r) ∧
    (rect a → rect a2) := by
  intro n
  induction n with
  | zero =>
    intro a ds a2 seqs ds2 h
    have h2 := Option.some.inj h
    rw [Prod.ext_iff] at h2
    obtain ⟨h3, h4⟩ := h2
    rw [Prod.ext_iff] at h4
    obtain ⟨h4, h5⟩ := h4
    subst h3
    subst h4
    refine ⟨rfl, rfl, by simp, by simp, fun h => h⟩
  | succ n ih =>
    intro a ds a2 seqs ds2 h
    cases ds with
    | nil => simp [removeRows] at h
    | cons idx ds' =>
      rw [show removeRows (n + 1) a (idx :: ds') =
        (popAt a idx).bind (fun pr => (removeRows n pr.2 ds').map
          (fun r => (r.1, stripGaps pr.1 :: r.2.1, r.2.2))) from rfl] at h
      cases hpop : popAt a idx with
      | none => rw [hpop] at h; simp at h
      | some pr =>
        rw [hpop, Option.some_bind] at h
        cases hrec : removeRows n pr.2 ds' with
        | none => rw [hrec] at h; simp at h
        | some r =>
          rw [hrec, Option.map_some'] at h
          obtain ⟨h3, h4, h5⟩ :
              r.1 = a2 ∧ stripGaps pr.1 :: r.2.1 = seqs ∧ r.2.2 = ds2 := by
            have h2 := Option.some.inj h
            simpa [Prod.ext_iff] using h2
          obtain ⟨hplen, hpperm, hpv, hpsub⟩ := popAt_spec hpop
          obtain ⟨hl, hsl, hperm, hmem, hrect⟩ := ih pr.2 ds' r.1 r.2.1 r.2.2 hrec
          subst h3
          subst h4
          refine ⟨by omega, by simp [hsl], ?_, ?_, ?_⟩
          · refine ((hpperm.map stripGaps).trans ?_)
            show (stripGaps pr.1 :: pr.2.map stripGaps).Perm _
            refine ((hperm.cons (stripGaps pr.1)).trans ?_)
            exact List.perm_middle.symm
          · intro s hs
            rcases List.mem_cons.mp hs with hs | hs
            · exact ⟨pr.1, hpv, hs⟩
            · obtain ⟨q, hq, hqs⟩ := hmem s hs
              exact ⟨q, hpsub q hq, hqs⟩
          · intro hra
            exact hrect (fun r1 h1 r2 h2 => hra r1 (hpsub _ h1) r2 (hpsub _ h2))

theorem getD_map_row {f : Row → Row} {l : List Row} {k : Nat} (h : k < l.length) :
    (l.map f).getD k [] = f (l.getD k []) := by
  rw [List.getD_eq_getElem?_getD, List.getElem?_map, List.getElem?_eq_getElem h,
    getD_eq_get _ _ h]
  rfl

theorem getD_take {r : Row} {n k : Nat} (h : k < n) :
    (r.take n).getD k '?' = r.getD k '?' := by
  rw [List.getD_eq_getElem?_getD, List.getD_eq_getElem?_getD, List.getElem?_take,
    if_pos h]

theorem pop_row_length {r : Row} {i : Nat} (h : i < r.length) :
    (r.take i ++ r.drop (i + 1)).length = r.length - 1 := by
  simp only [List.length_append, List.length_take, List.length_drop]
  omega

theorem strip_pop {r : Row} {i : Nat} (h : i < r.length) (hg : r.getD i '?' = '-') :
    stripGaps (r.take i ++ r.drop (i + 1)) = stripGaps r := by
  have hgi : r[i] = '-' := by rw [getD_eq_get _ _ h] at hg; exact hg
  conv_rhs => rw [← List.take_append_drop i r, List.drop_eq_getElem_cons h]
  simp only [stripGaps, List.filter_append, List.filter_cons, hgi]
  simp

theorem removeColAll_eq :
    ∀ (a : Profile) (i : Nat), (∀ r ∈ a, i < r.length) →
    removeColAll a i = some (a.map (fun row => row.take i ++ row.drop (i + 1))) := by
  intro a i
  induction a with
  | nil => intro _; rfl
  | cons r rs ih =>
    intro hall
    have hr : i < r.length := hall r (List.mem_cons_self r rs)
    have hpop : popAt r i = some (r.get ⟨i, hr⟩, r.take i ++ r.drop (i + 1)) := by
      unfold popAt
      rw [dif_pos hr]
    show List.mapM (fun row => (popAt row i).map Prod.snd) (r :: rs) = _
    rw [List.mapM_cons, hpop]
    have hrs := ih (fun q hq => hall q (List.mem_cons_of_mem _ hq))
    rw [show List.mapM (fun row => (popAt row i).map Prod.snd) rs =
      removeColAll rs i from rfl, hrs]
    rfl

/-- Descending null-column removal: each popped position is a gap in
every row, so row counts, rectangularity and stripped rows survive. -/
theorem foldRemove_spec :
    ∀ (nulls : List Nat) (a : Profile),
    (∀ i ∈ nulls, ∀ k, k < a.length →
      i < (a.getD k []).length ∧ (a.getD k []).getD i '?' = '-') →
    List.Pairwise (fun i1 i2 => i2 < i1) nulls → rect a →
    ∀ a2, nulls.foldlM removeColAll a = some a2 →
      a2.length = a.length ∧ rect a2 ∧ a2.map stripGaps = a.map stripGaps := by
  intro nulls
  induction nulls with
  | nil =>
    intro a _ _ _ a2 h
    have h2 : a = a2 := Option.some.inj h
    subst h2
    exact ⟨rfl, by assumption, rfl⟩
  | cons i rest ih =>
    intro a hall hpw hrect a2 h
    have hbound : ∀ r ∈ a, i < r.length := by
      intro r hr
      obtain ⟨⟨k, hk⟩, rfl⟩ := List.mem_iff_get.mp hr
      rw [← getD_eq_get _ [] hk]
      exact (hall i (List.mem_cons_self i rest) k hk).1
    rw [List.foldlM_cons, removeColAll_eq a i hbound] at h
    simp only [Option.pure_def, Option.bind_eq_bind, Option.some_bind] at h
    set a1 := a.map (fun row => row.take i ++ row.drop (i + 1)) with ha1
    have hlen1 : a1.length = a.length := by simp [ha1]
    have hrow1 : ∀ k, k < a.length → a1.getD k [] =
        (a.getD k []).take i ++ (a.getD k []).drop (i + 1) := by
      intro k hk
      rw [ha1, getD_map_row hk]
    have hrect1 : rect a1 := by
      intro r1 h1 r2 h2
      obtain ⟨q1, hq1, rfl⟩ := List.mem_map.mp h1
      obtain ⟨q2, hq2, rfl⟩ := List.mem_map.mp h2
      rw [pop_row_length (hbound q1 hq1), pop_row_length (hbound q2 hq2), hrect q1 hq1 q2 hq2]
    have hstr1 : a1.map stripGaps = a.map stripGaps := by
      apply map_strip_eq_of_getD (by rw [hlen1])
      intro k hk
      rw [hrow1 k hk]
      exact strip_pop (hall i (List.mem_cons_self i rest) k hk).1
        (hall i (List.mem_cons_self i rest) k hk).2
    have hall1 : ∀ i' ∈ rest, ∀ k, k < a1.length →
        i' < (a1.getD k []).length ∧ (a1.getD k []).getD i' '?' = '-' := by
      intro i' hi' k hk
      have hk' : k < a.length := by rw [← hlen1]; exact hk
      have hlt : i' < i := (List.pairwise_cons.mp hpw).1 i' hi'
      have hia := hall i (List.mem_cons_self i rest) k hk'
      have hia' := hall i' (List.mem_cons_of_mem _ hi') k hk'
      rw [hrow1 k hk']
      constructor
      · rw [pop_row_length hia.1]
        omega
      · rw [List.getD_append _ _ _ _ (by rw [List.length_take]; omega)]
        rw [getD_take hlt]
        exact hia'.2
    obtain ⟨g1, g2, g3⟩ := ih a1 hall1 (List.pairwise_cons.mp hpw).2 hrect1 a2 h
    exact ⟨by rw [g1, hlen1], g2, by rw [g3, hstr1]⟩

/-- Null-column removal preserves row count, rectangularity and the
stripped rows. -/
theorem removeNullCols_spec {a a2 : Profile} (h : removeNullCols a = some a2)
    (hrect : rect a) :
    a2.length = a.length ∧ rect a2 ∧ a2.map stripGaps = a.map stripGaps ∧ a ≠ [] := by
  cases a with
  | nil => simp [removeNullCols] at h
  | cons r0 rs =>
    rw [show removeNullCols (r0 :: rs) =
      (((List.range r0.length).filter
        (fun i => (r0 :: rs).all (fun row => row.getD i '?' = '-'))).reverse).foldlM
        removeColAll (r0 :: rs) from rfl] at h
    have hall : ∀ i ∈ ((List.range r0.length).filter
        (fun i => (r0 :: rs).all (fun row => row.getD i '?' = '-'))).reverse,
        ∀ k, k < (r0 :: rs).length →
        i < ((r0 :: rs).getD k []).length ∧ ((r0 :: rs).getD k []).getD i '?' = '-' := by
      intro i hi k hk
      rw [List.mem_reverse, List.mem_filter, List.mem_range] at hi
      obtain ⟨hilt, hip⟩ := hi
      rw [List.all_eq_true] at hip
      have hmem : (r0 :: rs).getD k [] ∈ r0 :: rs := by
        rw [getD_eq_get _ [] hk]
        exact List.get_mem _ _ _
      constructor
      · rw [rect_row_length hrect hk]
        exact hilt
      · exact of_decide_eq_true (hip _ hmem)
    have hpw : List.Pairwise (fun i1 i2 => i2 < i1)
        ((List.range r0.length).filter
          (fun i => (r0 :: rs).all (fun row => row.getD i '?' = '-'))).reverse := by
      rw [List.pairwise_reverse]
      exact List.Pairwise.sublist (List.filter_sublist _) (List.pairwise_lt_range _)
    obtain ⟨g1, g2, g3⟩ := foldRemove_spec _ _ hall hpw hrect a2 h
    exact ⟨g1, g2, g3, by simp⟩

/-- One whole refinement cycle preserves the row count, rectangularity
and the multiset of gap-stripped rows. -/
theorem cycle_spec {a : Profile} {numR : Nat} {d : Int} {ds : List Nat}
    {res : Profile × List Nat × Int × Int} (h : cycle a numR d ds = some res)
    (hrect : rect a) :
    res.1.length = a.length ∧ rect res.1 ∧
      (res.1.map stripGaps).Perm (a.map stripGaps) := by
  unfold cycle at h
  cases h1 : removeRows numR a ds with
  | none => rw [h1] at h; simp at h
  | some r1 =>
    rw [h1, Option.some_bind] at h
    cases h2 : removeNullCols r1.1 with
    | none => rw [h2] at h; simp at h
    | some a2 =>
      rw [h2, Option.map_some'] at h
      have h3 := Option.some.inj h
      obtain ⟨q1, q2, q3, q4, q5⟩ := removeRows_spec numR a ds r1.1 r1.2.1 r1.2.2 h1
      obtain ⟨n1, n2, n3, n4⟩ := removeNullCols_spec h2 (q5 hrect)
      have ha2ne : a2 ≠ [] := by
        intro hE
        apply n4
        rw [hE] at n1
        exact (List.length_eq_zero.mp n1.symm)
      obtain ⟨w1, w2, w3, w4⟩ := reinsertAll_spec d r1.2.1 a2 n2 ha2ne
      have hseq : r1.2.1.map stripGaps = r1.2.1 := by
        have : r1.2.1.map stripGaps = r1.2.1.map (fun s => s) := by
          apply List.map_congr_left
          intro s hs
          obtain ⟨r, _, rfl⟩ := q4 s hs
          exact stripGaps_idem r
        rw [this, List.map_id']
      subst h3
      refine ⟨?_, w2, ?_⟩
      · show (reinsertAll d a2 r1.2.1).length = a.length
        rw [w1, n1]
        omega
      · show ((reinsertAll d a2 r1.2.1).map stripGaps).Perm (a.map stripGaps)
        refine w4.trans ?_
        rw [hseq, n3]
        exact q3.symm

/-- The refinement loop preserves the row count, rectangularity and the
multiset of gap-stripped rows over any number of cycles. -/
theorem refineLoop_spec (numR : Nat) (d : Int) (m : ℚ) (acc : Nat → Bool) :
    ∀ (n : Nat) (a : Profile) (tq : ℚ) (counter c : Nat) (ds : List Nat) (s : Int)
      (out : Profile), rect a →
      refineLoop numR d m acc n a tq counter c ds = some (s, out) →
      out.length = a.length ∧ rect out ∧
        (out.map stripGaps).Perm (a.map stripGaps) := by
  intro n
  induction n with
  | zero =>
    intro a tq counter c ds s out hrect h
    obtain ⟨h1, h2⟩ : scoreAlignment a d = s ∧ a = out := by
      have h0 := Option.some.inj h
      simpa [Prod.ext_iff] using h0
    subst h2
    exact ⟨rfl, hrect, List.Perm.refl _⟩
  | succ n ih =>
    intro a tq counter c ds s out hrect h
    unfold refineLoop at h
    by_cases hcnt : 7 ≤ counter
    · rw [if_pos hcnt] at h
      obtain ⟨h1, h2⟩ : scoreAlignment a d = s ∧ a = out := by
        have h0 := Option.some.inj h
        simpa [Prod.ext_iff] using h0
      subst h2
      exact ⟨rfl, hrect, List.Perm.refl _⟩
    · rw [if_neg hcnt] at h
      cases hcy : cycle a numR d ds with
      | none => rw [hcy] at h; exact absurd h (by simp)
      | some r =>
        rw [hcy] at h
        have h' : refineLoop numR d m acc n r.1 (tq * m)
            (if r.2.2.2 = r.2.2.1 then counter + 1 else 0) (c + 1) r.2.1 =
            some (s, out) := h
        obtain ⟨y1, y2, y3⟩ := cycle_spec hcy hrect
        obtain ⟨z1, z2, z3⟩ := ih r.1 (tq * m) _ (c + 1) r.2.1 s out y2 h'
        exact ⟨by rw [z1, y1], z2, z3.trans y3⟩

/-- C10: for every rectangular input alignment with at least two rows and
any parameters, whenever `iterate` returns, the returned alignment has
exactly as many rows as the input, and the multiset of rows with all gap
symbols stripped is exactly that of the input — refinement only moves
gaps and reorders rows, never altering, adding or dropping sequence
symbols. -/
theorem iterate_preserves_rows_c10 (a : Profile) (t m y : ℚ) (d : Int)
    (ds : List Nat) (acc : Nat → Bool) (fuel : Nat) (s : Int) (out : Profile)
    (hrect : rect a) (_hrows : 2 ≤ a.length)
    (hres : iterate a t m y d ds acc fuel = some (s, out)) :
    out.length = a.length ∧ (out.map stripGaps).Perm (a.map stripGaps) := by
  simp only [iterate] at hres
  cases hn : nLoop (if 1 ≤ m then (19 : ℚ) / 20 else m) fuel t with
  | none => rw [hn] at hres; exact absurd hres (by simp)
  | some p =>
    rw [hn, Option.some_bind] at hres
    obtain ⟨z1, _, z3⟩ := refineLoop_spec _ d _ acc p.1 a p.2 0 0 ds s out hrect hres
    exact ⟨z1, z3⟩

set_option maxRecDepth 400000 in
/-- Witness for C10 at a concrete four-row run (four cycles, each
rotating the rows once). -/
theorem iterate_preserves_rows_c10_witness :
    iterate [['A'], ['R'], ['N'], ['D']] 10 ((1 : ℚ) / 2) 0 8 [0, 0, 0, 0]
      (fun _ => true) 100 = some (-6, [['A'], ['R'], ['N'], ['D']]) ∧
    (([['A'], ['R'], ['N'], ['D']] : Profile).map stripGaps).Perm
      (([['A'], ['R'], ['N'], ['D']] : Profile).map stripGaps) := by
  have hres : iterate [['A'], ['R'], ['N'], ['D']] 10 ((1 : ℚ) / 2) 0 8 [0, 0, 0, 0]
      (fun _ => true) 100 = some (-6, [['A'], ['R'], ['N'], ['D']]) := by
    with_unfolding_all decide
  exact ⟨hres, (iterate_preserves_rows_c10 _ 10 ((1 : ℚ) / 2) 0 8 _ _ 100 (-6) _
    (by decide) (by decide) hres).2⟩

end BioAlign
